import Mathlib

/-!
Verification of the TypedJS transpiler core against its specification.

The development shallowly embeds the parts of the source that the claims
touch:

* values manipulated by generated code  (JavaScript runtime values);
* the TypeNode representation produced by src/parser (tsTypeToString);
* the runtime structural matcher __matchesType__ and the union helper
  __checkUnion__ from src/generator/generator.js (lines 1085-1162 of the
  current version);
* the guard compiler compileCheck from src/generator/compiler.js, modelled
  by the pair (checkEmits, guardErrs): whether the returned fragment is the
  empty string, and the ordered sequence of __handleCheckError__ calls the
  fragment performs on a given value;
* the error hook __handleCheckError__ and the mode-dependent execution of a
  compiled guard;
* the static analyzer staticAnalyze with its private matchesType,
  checkType and checkObject helpers;
* the registry builder parseCode (two passes, enum materialization);
* the transform/emit pipeline transformAst and generate over a small
  statement model, with the external printer (escodegen) as a parameter.

Machine integers: the JavaScript numbers that the claims exercise are
integer literals compared only with strict equality and typeof, so they are
modelled as Int.  Strings carrying braces or apostrophes are written with
the escapes \x7b, \x7d and \x27.
-/

/-- A primitive literal value as it appears in literal types, enum members
and analyzer messages: a number, a string, or a boolean. -/
inductive JLit where
  | num (n : Int)
  | str (s : String)
  | bool (b : Bool)
deriving DecidableEq

/-- A JavaScript runtime value, as far as the generated guards and the
matcher inspect one: null, undefined, the primitives, arrays, plain
objects (ordered own enumerable string-keyed fields), Map and Set
instances.  Numeric string keys on arrays and prototype chains are not
modelled; no claim exercises them. -/
inductive JVal where
  | vnull
  | undefV
  | bool (b : Bool)
  | num (n : Int)
  | str (s : String)
  | arr (xs : List JVal)
  | obj (fs : List (String × JVal))
  | vmap (es : List (JVal × JVal))
  | vset (xs : List JVal)

/-- The JavaScript typeof operator.  typeof null is the string object. -/
def jtypeof : JVal → String
  | .vnull => "object"
  | .undefV => "undefined"
  | .bool _ => "boolean"
  | .num _ => "number"
  | .str _ => "string"
  | .arr _ => "object"
  | .obj _ => "object"
  | .vmap _ => "object"
  | .vset _ => "object"

def isNull : JVal → Bool
  | .vnull => true
  | _ => false

def isUndef : JVal → Bool
  | .undefV => true
  | _ => false

/-- Array.isArray. -/
def isArr : JVal → Bool
  | .arr _ => true
  | _ => false

/-- String prefix test (the startsWith of the source), implemented over
the character list so that concrete instances evaluate. -/
def strStartsWith (s pre : String) : Bool :=
  pre.data.isPrefixOf s.data

/-- The drop of a leading substring, used for rest-parameter names. -/
def strDrop (s : String) (n : Nat) : String :=
  ⟨s.data.drop n⟩

/-- Strict equality (===) between a runtime value and a literal. -/
def jvalEqLit : JVal → JLit → Bool
  | .num n, .num m => n == m
  | .str s, .str t => s == t
  | .bool a, .bool b => a == b
  | _, _ => false

/-- Property access value[k] on the values reachable inside a guard: own
fields of plain objects; undefined everywhere else (Map and Set instances
expose no own enumerable string properties). -/
def jget : JVal → String → JVal
  | .obj fs, k => ((fs.find? (fun p => p.fst == k)).map Prod.snd).getD .undefV
  | _, _ => .undefV

/-- Own enumerable entries, as iterated by for-in loops, Object.entries and
Object.values: the fields of a plain object, the indexed elements of an
array, nothing for Map and Set instances and primitives. -/
def jOwnEntries : JVal → List (String × JVal)
  | .obj fs => fs
  | .arr xs => (xs.enum).map (fun p => (toString p.fst, p.snd))
  | _ => []

mutual
/-- JSON.stringify restricted to the values the error messages display.
String escaping inside quoted strings is elided; object fields holding
undefined are dropped, per JSON.stringify. -/
def jsonStringify (v : JVal) : String :=
  match v with
  | .vnull => "null"
  | .undefV => "undefined"
  | .bool b => if b then "true" else "false"
  | .num n => toString n
  | .str s => "\"" ++ s ++ "\""
  | .arr xs => "[" ++ String.intercalate "," (jsonList xs) ++ "]"
  | .obj fs => "\x7b" ++ String.intercalate "," (jsonFields fs) ++ "\x7d"
  | .vmap _ => "\x7b\x7d"
  | .vset _ => "\x7b\x7d"
termination_by structural v

def jsonList (xs : List JVal) : List String :=
  match xs with
  | [] => []
  | x :: rest =>
      (if isUndef x then "null" else jsonStringify x) :: jsonList rest
termination_by structural xs

def jsonFields (fs : List (String × JVal)) : List String :=
  match fs with
  | [] => []
  | (k, x) :: rest =>
      if isUndef x then jsonFields rest
      else ("\"" ++ k ++ "\":" ++ jsonStringify x) :: jsonFields rest
termination_by structural fs
end

/-- The String() coercion for the primitive values that reach it. -/
def jsStringCoerce : JVal → String
  | .vnull => "null"
  | .undefV => "undefined"
  | .bool b => if b then "true" else "false"
  | .num n => toString n
  | .str s => s
  | v => jsonStringify v

/-- Runtime helper __valueStr__ (generator.js lines 1164-1171): objects are
JSON.stringify-ed, other values go through String(). -/
def valueStr (v : JVal) : String :=
  if jtypeof v == "object" then jsonStringify v else jsStringCoerce v

mutual
/-- The TypeNode representation, exactly the values tsTypeToString in
src/parser produces: bare strings (primitive keywords and unresolved
reference names) as prim, literal types, unions, intersections, the
optional wrapper, arrays, tuples, object shapes, Record, Map, Set, enum
references, and an opaque tagged node for every other kind the pipeline
carries but never inspects beyond its kind tag (promise, partial, generic,
conditional, function, method, templateLiteral, ...).  A shape is a raw
JS object in the source: the isig field here models the object's own
__indexSignature key (see ISig), so the props list never carries that
key, and the remaining double-underscore metadata keys (__meta,
__callSignature, __constructSignature, __extends) are skipped by every
consumer and left out.  A declared property named kind would occupy the
type.kind slot that compileCheck, the matcher and the analyzer dispatch
on, derailing them out of their shape branches altogether, so the shape
branches below model kind-free property lists and the shape claims
hypothesize them. -/
inductive JType where
  | prim (s : String)
  | lit (l : JLit)
  | union (ts : List JType)
  | inter (ts : List JType)
  | opt (t : JType)
  | arrayT (t : JType)
  | roArrayT (t : JType)
  | tupleT (els : List TupleEl)
  | shape (props : List (String × JType)) (isig : Option ISig)
  | recordT (kt : JType) (vt : JType)
  | mapT (kt : JType) (vt : JType)
  | setT (t : JType)
  | enumRefT (name : String) (vals : List (String × JLit))
  | other (kindName : String)

/-- One element of a tuple TypeNode: a plain type, an optional element, a
rest element, or a labeled element with its optional flag. -/
inductive TupleEl where
  | plainEl (t : JType)
  | optEl (t : JType)
  | restEl (t : JType)
  | labeledEl (label : String) (optFlag : Bool) (t : JType)

/-- The occupant of the shape's own __indexSignature key.  An
index-signature member writes the pair of key type and value type; a
declared property or method whose name is literally __indexSignature
writes its TypeNode into the very same slot (shape keys share one
namespace), and every consumer reads whatever occupies it. -/
inductive ISig where
  | mk (kt : JType) (vt : JType)
  | nodeSlot (t : JType)
end

/-- The element type of a tuple element as read by both the compiler and
the runtime matcher: el.type when the element is a wrapper object, the
element itself when it is a plain type. -/
def tupleElType : TupleEl → JType
  | .plainEl t => t
  | .optEl t => t
  | .restEl t => t
  | .labeledEl _ _ t => t

/-- Whether a tuple element is optional: kind optionalElement, or an
optional flag on a labeled element. -/
def tupleElOptional : TupleEl → Bool
  | .optEl _ => true
  | .labeledEl _ o _ => o
  | _ => false

mutual
/-- Runtime matcher __matchesType__ (generator.js lines 1089-1162),
branch for branch.  Bare strings: any and unknown always match, void and
undefined test for undefined, never matches nothing, null is identity,
object requires a non-null object, array requires Array.isArray, and every
other string falls through to typeof value === type (so an unresolved
reference name matches no value).  Object shapes skip double-underscore
keys and ignore the index signature; the source guards this branch with
!type.kind, so it covers kind-free property lists (a shape carrying a
declared kind property leaves it for the kind dispatch above or the
final return true).  Unrecognized kinds fall through to true. -/
def matchesType (v : JVal) (t : JType) : Bool :=
  match t with
  | .prim s =>
      if s == "any" || s == "unknown" then true
      else if s == "void" then isUndef v
      else if s == "never" then false
      else if s == "null" then isNull v
      else if s == "undefined" then isUndef v
      else if s == "object" then jtypeof v == "object" && !isNull v
      else if s == "array" then isArr v
      else jtypeof v == s
  | .lit l => jvalEqLit v l
  | .opt t => isUndef v || matchesType v t
  | .union ts => mtAny v ts
  | .inter ts => mtAll v ts
  | .shape props _ =>
      (jtypeof v == "object" && !isNull v) && mtProps v props
  | .enumRefT _ vals => vals.any (fun p => jvalEqLit v p.snd)
  | .arrayT t =>
      match v with
      | .arr xs => xs.all (fun x => matchesType x t)
      | _ => false
  | .roArrayT t =>
      match v with
      | .arr xs => xs.all (fun x => matchesType x t)
      | _ => false
  | .tupleT els =>
      match v with
      | .arr xs => mtTuple xs 0 els
      | _ => false
  | .recordT _ vt =>
      if jtypeof v == "object" && !isNull v && !isArr v then
        (jOwnEntries v).all (fun p => matchesType p.snd vt)
      else false
  | .mapT kt vt =>
      match v with
      | .vmap es => es.all (fun p => matchesType p.fst kt && matchesType p.snd vt)
      | _ => false
  | .setT t =>
      match v with
      | .vset xs => xs.all (fun x => matchesType x t)
      | _ => false
  | .other _ => true
termination_by structural t

/-- type.types.some, the body of __checkUnion__ and of the union branch. -/
def mtAny (v : JVal) (ts : List JType) : Bool :=
  match ts with
  | [] => false
  | t :: ts => matchesType v t || mtAny v ts
termination_by structural ts

/-- type.types.every, the intersection branch. -/
def mtAll (v : JVal) (ts : List JType) : Bool :=
  match ts with
  | [] => true
  | t :: ts => matchesType v t && mtAll v ts
termination_by structural ts

/-- The object-shape property walk of the matcher: entries whose key
starts with a double underscore are filtered out, every other declared
property must match on value[k]. -/
def mtProps (v : JVal) (props : List (String × JType)) : Bool :=
  match props with
  | [] => true
  | (k, t) :: rest =>
      (strStartsWith k "__" || matchesType (jget v k) t) && mtProps v rest
termination_by structural props

/-- The tuple branch of the matcher: elements.every with its index.  A
rest element checks value.slice(i) against el.type; the every combinator
then continues with the following elements, exactly as the source does.
The element type is el.type for wrapper elements and the element itself
for plain ones; optional positions (kind optionalElement, or an optional
flag) are accepted when the value is too short. -/
def mtTuple (xs : List JVal) (i : Nat) (els : List TupleEl) : Bool :=
  match els with
  | [] => true
  | .restEl t :: rest =>
      ((xs.drop i).all (fun x => matchesType x t)) && mtTuple xs (i + 1) rest
  | .plainEl t :: rest =>
      matchesType (xs.getD i .undefV) t && mtTuple xs (i + 1) rest
  | .optEl t :: rest =>
      (decide (xs.length ≤ i) || matchesType (xs.getD i .undefV) t) &&
        mtTuple xs (i + 1) rest
  | .labeledEl _ o t :: rest =>
      (if o then decide (xs.length ≤ i) || matchesType (xs.getD i .undefV) t
       else matchesType (xs.getD i .undefV) t) && mtTuple xs (i + 1) rest
termination_by structural els
end

mutual
/-- compileCheck returns the empty string exactly for: any, unknown and
unresolved reference names (compileStringType falls through to an empty
erase-at-runtime fragment), an optional wrapper whose inner fragment is
empty, and an intersection all of whose member fragments are empty.
Every other TypeNode compiles to a nonempty guard fragment. -/
def checkEmits (t : JType) : Bool :=
  match t with
  | .prim s =>
      s == "void" || s == "never" || s == "null" || s == "undefined" ||
      s == "object" || s == "array" || s == "string" || s == "number" ||
      s == "boolean" || s == "bigint" || s == "symbol" || s == "function"
  | .opt t => checkEmits t
  | .inter ts => ceAny ts
  | _ => true
termination_by structural t

/-- Whether some member of an intersection compiles to a nonempty
fragment (the filter(Boolean) in the intersection branch). -/
def ceAny (ts : List JType) : Bool :=
  match ts with
  | [] => false
  | t :: ts => checkEmits t || ceAny ts
termination_by structural ts
end

mutual
/-- typeToString of src/generator/compiler.js (lines 164-174), used for
the expected field of error-hook calls emitted for unions and for the
matcher fallback.  Every kind it does not list prints as its kind tag,
and a kindless object shape prints as unknown. -/
def compTypeToString (t : JType) : String :=
  match t with
  | .prim s => s
  | .union ts => String.intercalate " | " (ctsList ts)
  | .inter ts => String.intercalate " & " (ctsList ts)
  | .arrayT t => compTypeToString t ++ "[]"
  | .roArrayT t => "ReadonlyArray<" ++ compTypeToString t ++ ">"
  | .lit l =>
      match l with
      | .num n => toString n
      | .str s => "\"" ++ s ++ "\""
      | .bool b => if b then "true" else "false"
  | .enumRefT n _ => n
  | .opt _ => "optional"
  | .tupleT _ => "tuple"
  | .shape _ _ => "unknown"
  | .recordT _ _ => "record"
  | .mapT _ _ => "map"
  | .setT _ => "set"
  | .other k => k
termination_by structural t

def ctsList (ts : List JType) : List String :=
  match ts with
  | [] => []
  | t :: ts => compTypeToString t :: ctsList ts
termination_by structural ts
end

/-- One invocation of the error hook recorded by a running guard: the
diagnostic path string (first hook argument), the expected-type display
(second argument), and the offending value (stringified into the third
argument). -/
structure ErrCall where
  path : String
  expected : String
  value : JVal

/-- String(type.value), the expected display compiled for literal types:
the literal code embeds JSON.stringify(String(value)). -/
def litExpected : JLit → String
  | .num n => toString n
  | .str s => s
  | .bool b => if b then "true" else "false"

/-- The first hook argument: JSON.stringify(path) when path is truthy,
else JSON.stringify(varName); the runtime receives the unquoted string. -/
def errPathOf (varName path : String) : String :=
  if path == "" then varName else path

/-- Path extension for object properties: path plus a dot plus the
property name, or the bare property name when path is empty. -/
def extendPath (path k : String) : String :=
  if path == "" then k else path ++ "." ++ k

/-- The identifier test IDENTIFIER_RE used to choose between dot and
bracket property access in emitted code. -/
def identOk (k : String) : Bool :=
  match k.data with
  | [] => false
  | c :: rest =>
      (c.isAlpha || c == '_' || c == '$') &&
      rest.all (fun d => d.isAlphanum || d == '_' || d == '$')

/-- The target expression for a property access in emitted code. -/
def propAccess (varName k : String) : String :=
  if identOk k then varName ++ "." ++ k
  else varName ++ "[\"" ++ k ++ "\"]"

/-- The target expression inside an emitted loop.  The source names the
loop variable with a random suffix; since the loop variable only ever
reaches an error message through the varName fallback of an empty path,
and every caller passes a nonempty path, the model writes a fixed marker
in its place. -/
def subscriptName (varName : String) : String :=
  varName ++ "[#]"

mutual
/-- The sequence of __handleCheckError__ invocations performed by the
guard fragment that compileCheck (src/generator/compiler.js lines 8-92)
produces for the given target, on the given runtime value, in source
order.  An empty fragment (see checkEmits) performs no invocations.  The
mode argument of compileCheck is threaded but never read, so it does not
appear here.  Branches mirror the source templates: literal, optional,
array, tuple, object shape (with the double-underscore skip and the index
signature loop), union (via __checkUnion__, i.e. the matcher), pointwise
intersection, Map, Set, Record, enum membership, and the fallback that
defers to __matchesType__.  The shape branch reaches compileObjectCheck
through the dispatch type.kind === "object" || isObjectShape(type), and
isObjectShape requires !type.kind: it covers kind-free property lists,
since a shape carrying a declared kind property is captured by an earlier
kind comparison or ends at the matcher fallback instead. -/
def guardErrs (varName path : String) (v : JVal) (t : JType) : List ErrCall :=
  match t with
  | .prim s =>
      if s == "any" || s == "unknown" then []
      else if s == "void" then
        if isUndef v then [] else [⟨errPathOf varName path, "void", v⟩]
      else if s == "never" then [⟨errPathOf varName path, "never", v⟩]
      else if s == "null" then
        if isNull v then [] else [⟨errPathOf varName path, "null", v⟩]
      else if s == "undefined" then
        if isUndef v then [] else [⟨errPathOf varName path, "undefined", v⟩]
      else if s == "object" then
        if jtypeof v == "object" && !isNull v then []
        else [⟨errPathOf varName path, "object", v⟩]
      else if s == "array" then
        if isArr v then [] else [⟨errPathOf varName path, "Array", v⟩]
      else if s == "string" || s == "number" || s == "boolean" ||
              s == "bigint" || s == "symbol" || s == "function" then
        if jtypeof v == s then [] else [⟨errPathOf varName path, s, v⟩]
      else []
  | .lit l =>
      if jvalEqLit v l then []
      else [⟨errPathOf varName path, litExpected l, v⟩]
  | .opt t =>
      if isUndef v then [] else guardErrs varName path v t
  | .arrayT t =>
      match v with
      | .arr xs => xs.flatMap (fun x => guardErrs (subscriptName varName) path x t)
      | _ => [⟨errPathOf varName path, "Array", v⟩]
  | .roArrayT t =>
      match v with
      | .arr xs => xs.flatMap (fun x => guardErrs (subscriptName varName) path x t)
      | _ => [⟨errPathOf varName path, "Array", v⟩]
  | .tupleT els =>
      match v with
      | .arr xs => gTuple varName path xs 0 els
      | _ => [⟨errPathOf varName path, "Array", v⟩]
  | .shape props isig =>
      if jtypeof v == "object" && !isNull v && !isArr v then
        gProps varName path v props ++ gIdx varName path v isig
      else [⟨errPathOf varName path, "object", v⟩]
  | .union ts =>
      if mtAny v ts then []
      else [⟨errPathOf varName path, compTypeToString (.union ts), v⟩]
  | .inter ts => gInter varName path v ts
  | .mapT kt vt =>
      match v with
      | .vmap es =>
          es.flatMap (fun p =>
            guardErrs (subscriptName varName) path p.fst kt ++
            guardErrs (subscriptName varName) path p.snd vt)
      | _ => [⟨errPathOf varName path, "Map", v⟩]
  | .setT t =>
      match v with
      | .vset xs => xs.flatMap (fun x => guardErrs (subscriptName varName) path x t)
      | _ => [⟨errPathOf varName path, "Set", v⟩]
  | .recordT _ vt =>
      if jtypeof v == "object" && !isNull v && !isArr v then
        (jOwnEntries v).flatMap (fun p => guardErrs (subscriptName varName) path p.snd vt)
      else [⟨errPathOf varName path, "object", v⟩]
  | .enumRefT n vals =>
      if vals.any (fun p => jvalEqLit v p.snd) then []
      else [⟨errPathOf varName path, n, v⟩]
  | .other k =>
      if matchesType v (.other k) then []
      else [⟨errPathOf varName path, compTypeToString (.other k), v⟩]
termination_by structural t

/-- The property checks of compileObjectCheck: declared keys with a
double-underscore prefix are skipped; others are checked at value[k] with
the path extended by the property name.  Fragments that compile to the
empty string are skipped in the source and contribute no hook calls
here. -/
def gProps (varName path : String) (v : JVal) (props : List (String × JType)) :
    List ErrCall :=
  match props with
  | [] => []
  | (k, t) :: rest =>
      (if strStartsWith k "__" then []
       else guardErrs (propAccess varName k) (extendPath path k) (jget v k) t)
      ++ gProps varName path v rest
termination_by structural props

/-- The index-signature loop of compileObjectCheck, guarded by
indexSig?.valueType: when the slot holds a value type, a for-in loop
checks every own enumerable key of the value, declared or not, against
it.  The slot may hold the pair an index-signature member wrote, or -
through the shared key namespace - the TypeNode of a declared property
named __indexSignature; among TypeNodes only record and map nodes carry a
valueType field, and a slot without one emits no loop. -/
def gIdx (varName path : String) (v : JVal) (isig : Option ISig) : List ErrCall :=
  match isig with
  | none => []
  | some (.mk _ vt) =>
      (jOwnEntries v).flatMap (fun p => guardErrs (subscriptName varName) path p.snd vt)
  | some (.nodeSlot (.recordT _ vt)) =>
      (jOwnEntries v).flatMap (fun p => guardErrs (subscriptName varName) path p.snd vt)
  | some (.nodeSlot (.mapT _ vt)) =>
      (jOwnEntries v).flatMap (fun p => guardErrs (subscriptName varName) path p.snd vt)
  | some (.nodeSlot _) => []
termination_by structural isig

/-- compileTupleCheck: positional checks; optional positions are guarded
by a length test, and a rest element compiles to a loop over the
remaining values and breaks out, discarding any elements after it. -/
def gTuple (varName path : String) (xs : List JVal) (i : Nat) (els : List TupleEl) :
    List ErrCall :=
  match els with
  | [] => []
  | .restEl t :: _ =>
      (xs.drop i).flatMap (fun x => guardErrs (subscriptName varName) path x t)
  | .plainEl t :: rest =>
      guardErrs (subscriptName varName) path (xs.getD i .undefV) t
        ++ gTuple varName path xs (i + 1) rest
  | .optEl t :: rest =>
      (if i < xs.length then
        guardErrs (subscriptName varName) path (xs.getD i .undefV) t
       else [])
        ++ gTuple varName path xs (i + 1) rest
  | .labeledEl _ o t :: rest =>
      (if o then
        (if i < xs.length then
          guardErrs (subscriptName varName) path (xs.getD i .undefV) t
         else [])
       else guardErrs (subscriptName varName) path (xs.getD i .undefV) t)
        ++ gTuple varName path xs (i + 1) rest
termination_by structural els

/-- The intersection branch: each member is compiled against the same
target; empty member fragments vanish in the filter(Boolean).join. -/
def gInter (varName path : String) (v : JVal) (ts : List JType) : List ErrCall :=
  match ts with
  | [] => []
  | t :: ts => guardErrs varName path v t ++ gInter varName path v ts
termination_by structural ts
end

/-- The observable effect of one __handleCheckError__ call: a thrown
TypeError (production and strict) or a console warning (otherwise). -/
inductive HookEffect where
  | warned (msg : String)
  | thrown (msg : String)

/-- __handleCheckError__ (generator.js lines 1072-1083): builds the
message from the baked-in mode, throws a TypeError when the mode is
production or strict, otherwise logs a colored non-fatal warning. -/
def handleCheckError (mode name expected actual : String) : HookEffect :=
  let message := name ++ " expected " ++ expected ++ ", got " ++ actual
  if mode == "production" || mode == "strict" then
    .thrown ("[TypedJS] " ++ message)
  else
    .warned ("\x1b[33m[Type warning]\x1b[0m " ++ message)

/-- Executes the hook calls of a compiled guard fragment in order.  A
thrown TypeError aborts (the remaining calls never run); warnings
accumulate and execution continues. -/
def runHook (mode : String) : List ErrCall → Except String (List String)
  | [] => .ok []
  | e :: rest =>
      match handleCheckError mode e.path e.expected (valueStr e.value) with
      | .thrown m => .error m
      | .warned m =>
          match runHook mode rest with
          | .error m2 => .error m2
          | .ok ms => .ok (m :: ms)

/-- Running the guard that compileCheck emits for a renamed parameter
and then rebinding the original name (the const x = __arg_x statement
that transformAst appends after the checks): on success the original
value flows on unchanged, together with the warnings logged along the
way; a throw aborts with the TypeError message. -/
def guardRun (mode varName path : String) (t : JType) (v : JVal) :
    Except String (JVal × List String) :=
  match runHook mode (guardErrs varName path v t) with
  | .error m => .error m
  | .ok ws => .ok (v, ws)

/-! ## Static analyzer (staticAnalyze and its private helpers) -/

/-- Whether a TypeNode is the bare string any (the registry builder and
the analyzer compare entry.returnType !== the string any). -/
def isAnyPrim : JType → Bool
  | .prim s => s == "any"
  | _ => false

/-- Whether a TypeNode is the bare string void. -/
def isVoidPrim : JType → Bool
  | .prim s => s == "void"
  | _ => false

/-- The required-element count of a tuple in the analyzer: every element
that is neither an optionalElement nor a rest element, labeled elements
included regardless of their optional flag. -/
def requiredCount : List TupleEl → Nat
  | [] => 0
  | .optEl _ :: rest => requiredCount rest
  | .restEl _ :: rest => requiredCount rest
  | _ :: rest => requiredCount rest + 1

mutual
/-- The private matchesType of staticAnalyze (analyzer source lines
22-147).  It differs from the runtime matcher: unresolved references,
the strings array and function, and anything not explicitly listed in the
string branch match no value; object shapes, the optional wrapper and
every unlisted object kind fall into the deferring catch-all and match
every value; record accepts arrays and also checks its key type against
the own keys. -/
def anMatchesType (v : JVal) (t : JType) : Bool :=
  match t with
  | .union ts => anAny v ts
  | .lit l => jvalEqLit v l
  | .inter ts => anAll v ts
  | .enumRefT _ vals => vals.any (fun p => jvalEqLit v p.snd)
  | .prim s =>
      if s == "any" || s == "unknown" then true
      else if s == "never" then false
      else if s == "void" then isUndef v
      else if s == "string" then jtypeof v == "string"
      else if s == "number" then jtypeof v == "number"
      else if s == "boolean" then jtypeof v == "boolean"
      else if s == "null" then isNull v
      else if s == "undefined" then isUndef v
      else if s == "bigint" then jtypeof v == "bigint"
      else if s == "symbol" then jtypeof v == "symbol"
      else if s == "object" then jtypeof v == "object" && !isNull v
      else false
  | .arrayT t =>
      match v with
      | .arr xs => xs.all (fun x => anMatchesType x t)
      | _ => false
  | .roArrayT t =>
      match v with
      | .arr xs => xs.all (fun x => anMatchesType x t)
      | _ => false
  | .tupleT els =>
      match v with
      | .arr xs =>
          if xs.length < requiredCount els then false
          else anTuple xs 0 els
      | _ => false
  | .recordT kt vt =>
      if jtypeof v == "object" && !isNull v then
        (jOwnEntries v).all (fun p =>
          anMatchesType (.str p.fst) kt && anMatchesType p.snd vt)
      else false
  | .mapT kt vt =>
      match v with
      | .vmap es =>
          es.all (fun p => anMatchesType p.fst kt && anMatchesType p.snd vt)
      | _ => false
  | .setT t =>
      match v with
      | .vset xs => xs.all (fun x => anMatchesType x t)
      | _ => false
  | .shape _ _ => true
  | .opt _ => true
  | .other _ => true
termination_by structural t

def anAny (v : JVal) (ts : List JType) : Bool :=
  match ts with
  | [] => false
  | t :: ts => anMatchesType v t || anAny v ts
termination_by structural ts

def anAll (v : JVal) (ts : List JType) : Bool :=
  match ts with
  | [] => true
  | t :: ts => anMatchesType v t && anAll v ts
termination_by structural ts

/-- The element loop of the analyzer tuple branch.  A rest element checks
the remaining values against el.type.elementType when el.type carries an
elementType field (array, readonly array, set), else against el.type, and
then breaks out with the overall verdict, skipping later elements.  When
a position is beyond the value length the loop returns the optional flag
of that element immediately, also skipping later elements. -/
def anTuple (xs : List JVal) (i : Nat) (els : List TupleEl) : Bool :=
  match els with
  | [] => true
  | .restEl (.arrayT e) :: _ => (xs.drop i).all (fun x => anMatchesType x e)
  | .restEl (.roArrayT e) :: _ => (xs.drop i).all (fun x => anMatchesType x e)
  | .restEl (.setT e) :: _ => (xs.drop i).all (fun x => anMatchesType x e)
  | .restEl t :: _ => (xs.drop i).all (fun x => anMatchesType x t)
  | .plainEl t :: rest =>
      if xs.length ≤ i then false
      else anMatchesType (xs.getD i .undefV) t && anTuple xs (i + 1) rest
  | .optEl t :: rest =>
      if xs.length ≤ i then true
      else anMatchesType (xs.getD i .undefV) t && anTuple xs (i + 1) rest
  | .labeledEl _ o t :: rest =>
      if xs.length ≤ i then o
      else anMatchesType (xs.getD i .undefV) t && anTuple xs (i + 1) rest
termination_by structural els
end

mutual
/-- The private typeToString of staticAnalyze (analyzer source lines
321-372), used in its diagnostic messages.  Kinds it does not list fall
into the raw object-shape rendering; for the opaque unmodeled kinds the
model renders the kind tag it kept. -/
def anTypeToString (t : JType) : String :=
  match t with
  | .prim s => s
  | .lit l =>
      match l with
      | .num n => toString n
      | .str s => "\"" ++ s ++ "\""
      | .bool b => if b then "true" else "false"
  | .union ts => String.intercalate " | " (atsList ts)
  | .inter ts => String.intercalate " & " (atsList ts)
  | .arrayT t => "Array<" ++ anTypeToString t ++ ">"
  | .roArrayT t => "ReadonlyArray<" ++ anTypeToString t ++ ">"
  | .tupleT els => "[" ++ String.intercalate ", " (atsTuple els) ++ "]"
  | .mapT kt vt => "Map<" ++ anTypeToString kt ++ ", " ++ anTypeToString vt ++ ">"
  | .setT t => "Set<" ++ anTypeToString t ++ ">"
  | .recordT kt vt => "Record<" ++ anTypeToString kt ++ ", " ++ anTypeToString vt ++ ">"
  | .opt t => anTypeToString t ++ "?"
  | .enumRefT n _ => n
  | .shape props _ => "\x7b " ++ String.intercalate ", " (atsProps props) ++ " \x7d"
  | .other k => "\x7b kind: " ++ k ++ " \x7d"
termination_by structural t

def atsList (ts : List JType) : List String :=
  match ts with
  | [] => []
  | t :: ts => anTypeToString t :: atsList ts
termination_by structural ts

def atsTuple (els : List TupleEl) : List String :=
  match els with
  | [] => []
  | .optEl t :: rest => (anTypeToString t ++ "?") :: atsTuple rest
  | .restEl t :: rest => ("..." ++ anTypeToString t) :: atsTuple rest
  | .labeledEl lb _ t :: rest => (lb ++ ": " ++ anTypeToString t) :: atsTuple rest
  | .plainEl t :: rest => anTypeToString t :: atsTuple rest
termination_by structural els

def atsProps (props : List (String × JType)) : List String :=
  match props with
  | [] => []
  | (k, t) :: rest =>
      if strStartsWith k "__" then atsProps rest
      else (k ++ ": " ++ anTypeToString t) :: atsProps rest
termination_by structural props
end

/-- A literal-expression node of the syntax tree, as far as the static
analyzer inspects initializers and return arguments: a Literal (carrying
its primitive value), an object literal, an array literal (elisions not
modelled), a bare identifier, or any other expression. -/
inductive VNode where
  | literalN (v : JVal)
  | objectN (props : List (String × VNode))
  | arrayN (els : List VNode)
  | identN (name : String)
  | otherN

/-- The props map that checkObject builds from an ObjectExpression:
property assignment with later duplicate keys overwriting earlier ones. -/
def lookupVN : List (String × VNode) → String → Option VNode
  | [], _ => none
  | (k2, v2) :: rest, k =>
      match lookupVN rest k with
      | some r => some r
      | none => if k2 == k then some v2 else none

/-- The JavaScript in operator over the keys of a shape. -/
def containsKeyTy (sprops : List (String × JType)) (k : String) : Bool :=
  sprops.any (fun p => p.fst == k)

/-- Lookup of a shape key. -/
def lookupTy : List (String × JType) → String → Option JType
  | [], _ => none
  | (k2, t) :: rest, k => if k2 == k then some t else lookupTy rest k

/-- Removal of the one entry a shape key occupies. -/
def eraseKeyTy (k : String) : List (String × JType) → List (String × JType)
  | [] => []
  | (k2, t) :: rest => if k2 == k then rest else (k2, t) :: eraseKeyTy k rest

/-- The assignment shape[name] = t of the member walks: one slot per key,
a later assignment overwrites the value, the key keeps its first
insertion position.  The walk is modelled right to left, so when the tail
(the later members) already carries the key, the earlier write
contributes only the earlier position and the later value survives. -/
def insertShapeKey (name : String) (t : JType) (ps : List (String × JType)) :
    List (String × JType) :=
  match lookupTy ps name with
  | some t2 => (name, t2) :: eraseKeyTy name ps
  | none => (name, t) :: ps

/-- checkType of the analyzer applied to an absent expected type: the
undefined valueType of a slot occupant without that field.  The private
matcher rejects every value against undefined (all its probes miss and it
ends at return false), so a literal is reported with typeToString
rendering the absent type as unknown; object and array nodes fail the
typeof and kind probes and pass silently, as does everything else. -/
def checkTypeMissing (name : String) (vn : VNode) : List String :=
  if strStartsWith name "__" then []
  else
    match vn with
    | .literalN v =>
        ["[Static type error] \x27" ++ name ++ "\x27 got " ++ jsonStringify v ++
         ", expected unknown"]
    | _ => []

/-- The analyzer index-signature loop when the slot occupant carries no
valueType field: each undeclared or double-underscore value key is
checked against the absent type. -/
def coIdxMissing (name : String) (sprops : List (String × JType))
    (ps : List (String × VNode)) : List String :=
  match ps with
  | [] => []
  | (key, vn) :: rest =>
      (if !(containsKeyTy sprops key) || strStartsWith key "__" then
        checkTypeMissing (name ++ "[\"" ++ key ++ "\"]") vn
       else []) ++ coIdxMissing name sprops rest

def isOptType : JType → Bool
  | .opt _ => true
  | _ => false

def unwrapOpt : JType → JType
  | .opt t => t
  | t => t

def isIdentN : VNode → Bool
  | .identN _ => true
  | _ => false

/-- The type the analyzer checks an array-literal element against when the
declared type is a tuple; a rest element object is passed through whole
and lands in the always-true catch-all of the private matcher, which the
model renders as an opaque rest node. -/
def anTupleElType : TupleEl → JType
  | .optEl t => t
  | .labeledEl _ _ t => t
  | .plainEl t => t
  | .restEl _ => JType.other "rest"

theorem lookupVN_sizeOf_lt (props : List (String × VNode)) (k : String) (vn : VNode)
    (h : lookupVN props k = some vn) : sizeOf vn < sizeOf props := by
  induction props with
  | nil => simp [lookupVN] at h
  | cons p rest ih =>
      obtain ⟨k2, v2⟩ := p
      simp only [lookupVN] at h
      cases hr : lookupVN rest k with
      | some r =>
          rw [hr] at h
          injection h with h2
          subst h2
          have hlt := ih hr
          simp only [List.cons.sizeOf_spec]
          omega
      | none =>
          rw [hr] at h
          by_cases hk : (k2 == k) = true
          · rw [if_pos hk] at h
            injection h with h2
            subst h2
            simp only [List.cons.sizeOf_spec, Prod.mk.sizeOf_spec]
            omega
          · rw [if_neg hk] at h
            cases h

mutual
/-- checkType of staticAnalyze (analyzer source lines 149-185): names
with a double-underscore prefix are skipped; a Literal is judged by the
private matcher; an object literal with an object-typed declared type is
delegated to checkObject unless the type is a literal type; an array
literal is walked elementwise against an array element type or positional
tuple types; everything else passes silently. -/
def checkType (name : String) (vn : VNode) (t : JType) : List String :=
  if strStartsWith name "__" then []
  else
    match vn with
    | .literalN v =>
        if anMatchesType v t then []
        else ["[Static type error] \x27" ++ name ++ "\x27 got " ++ jsonStringify v ++
              ", expected " ++ anTypeToString t]
    | .objectN props =>
        (match t with
         | .prim _ => []
         | .lit _ => []
         | _ => checkObject name props t)
    | .arrayN els =>
        (match t with
         | .arrayT et => ctArr name els 0 et
         | .roArrayT et => ctArr name els 0 et
         | .tupleT tels => ctTup name els 0 tels
         | _ => [])
    | _ => []
termination_by (sizeOf vn, 0, 0)

/-- checkObject of staticAnalyze (analyzer source lines 187-246): unions
produce nothing; intersections recurse into their kindless object-shape
members only; any other construct with a string kind is skipped by the
type.kind test of line 217, which also means the shape walk below covers
kind-free property lists (a shape carrying a declared kind property of
string type is skipped whole by that same test); an object shape is
walked property by property (missing non-optional properties are
reported, double-underscore keys skipped) and then, when the
__indexSignature slot is occupied, every value key that is undeclared or
double-underscore-prefixed is checked against the occupant's value type -
the pair an index-signature member wrote, the valueType field of a
record or map node a declared property of that name stored, or the
absent type of any other occupant. -/
def checkObject (name : String) (props : List (String × VNode)) (t : JType) :
    List String :=
  match t with
  | .union _ => []
  | .inter ts => coInter name props ts
  | .shape sprops isig =>
      coProps name props sprops ++
      (match isig with
       | some (.mk _ vt) => coIdx name sprops vt props
       | some (.nodeSlot (.recordT _ vt)) => coIdx name sprops vt props
       | some (.nodeSlot (.mapT _ vt)) => coIdx name sprops vt props
       | some (.nodeSlot _) => coIdxMissing name sprops props
       | none => [])
  | _ => []
termination_by (sizeOf props, sizeOf t, 2)

def coInter (name : String) (props : List (String × VNode)) (ts : List JType) :
    List String :=
  match ts with
  | [] => []
  | mt :: rest =>
      (match mt with
       | .shape sp ii => checkObject name props (.shape sp ii)
       | _ => []) ++ coInter name props rest
termination_by (sizeOf props, sizeOf ts, 1)

def coProps (name : String) (props : List (String × VNode))
    (sprops : List (String × JType)) : List String :=
  match sprops with
  | [] => []
  | (key, et) :: rest =>
      (if strStartsWith key "__" then []
       else
        match hv : lookupVN props key with
        | none =>
            if isOptType et then []
            else ["[Static type error] Property \x27" ++ key ++
                  "\x27 is missing in object \x27" ++ name ++ "\x27"]
        | some vn => checkType (name ++ "." ++ key) vn (unwrapOpt et))
      ++ coProps name props rest
termination_by (sizeOf props, sizeOf sprops, 0)
decreasing_by
  all_goals first
    | (apply Prod.Lex.left
       have hb := lookupVN_sizeOf_lt _ _ _ (by assumption)
       omega)
    | (apply Prod.Lex.right
       apply Prod.Lex.left
       simp only [List.cons.sizeOf_spec, Prod.mk.sizeOf_spec]
       omega)

def coIdx (name : String) (sprops : List (String × JType)) (vt : JType)
    (ps : List (String × VNode)) : List String :=
  match ps with
  | [] => []
  | (key, vn) :: rest =>
      (if !(containsKeyTy sprops key) || strStartsWith key "__" then
        checkType (name ++ "[\"" ++ key ++ "\"]") vn vt
       else []) ++ coIdx name sprops vt rest
termination_by (sizeOf ps, 0, 0)

def ctArr (name : String) (els : List VNode) (i : Nat) (et : JType) : List String :=
  match els with
  | [] => []
  | el :: rest =>
      checkType (name ++ "[" ++ toString i ++ "]") el et ++ ctArr name rest (i + 1) et
termination_by (sizeOf els, 0, 0)

def ctTup (name : String) (els : List VNode) (i : Nat) (tels : List TupleEl) :
    List String :=
  match els with
  | [] => []
  | el :: rest =>
      (match tels[i]? with
       | some te => checkType (name ++ "[" ++ toString i ++ "]") el (anTupleElType te)
       | none => []) ++ ctTup name rest (i + 1) tels
termination_by (sizeOf els, 0, 0)
end

/-! ## Registry builder (parseCode of src/parser) -/

/-- One function parameter recorded in the registry: the (possibly
dot-prefixed rest) name, the translated type, the optional flag, and
whether it is the TypeScript this pseudo-parameter. -/
structure FParam where
  name : String
  type : JType
  optional : Bool
  isThis : Bool

/-- A registry entry as parseCode pushes them: enum (with materialized
members), interface (shape properties plus index signature; the extends
list and readonly markers are metadata under double-underscore keys that
every consumer skips, so the model leaves them out), type alias,
variable, function, class (the class payload is never read by the
transform or the analyzer, so only the name is kept). -/
inductive RegEntry where
  | enumE (name : String) (members : List (String × JLit)) (isConst : Bool)
  | ifaceE (name : String) (props : List (String × JType)) (isig : Option ISig)
  | aliasE (name : String) (t : JType)
  | varE (name : String) (t : JType) (isConst : Bool)
  | funcE (name : String) (params : List FParam) (ret : JType)
  | classE (name : String)

/-- The (kind, name) key of an entry, with the kind strings of the
source. -/
def regKey : RegEntry → String × String
  | .enumE n _ _ => ("enum", n)
  | .ifaceE n _ _ => ("interface", n)
  | .aliasE n _ => ("typeAlias", n)
  | .varE n _ _ => ("variable", n)
  | .funcE n _ _ => ("function", n)
  | .classE n => ("class", n)

/-- registry.find for interfaces resolves the first entry with the kind
interface and the given name; likewise for aliases and enums. -/
def findIface : List RegEntry → String → Option (List (String × JType) × Option ISig)
  | [], _ => none
  | .ifaceE m ps ii :: rest, n =>
      if m == n then some (ps, ii) else findIface rest n
  | _ :: rest, n => findIface rest n

/-- Resolution of a bare name against type aliases. -/
def findAlias : List RegEntry → String → Option JType
  | [], _ => none
  | .aliasE m t :: rest, n => if m == n then some t else findAlias rest n
  | _ :: rest, n => findAlias rest n

/-- Resolution of a bare name against enums, yielding the members. -/
def findEnum : List RegEntry → String → Option (List (String × JLit))
  | [], _ => none
  | .enumE m ms _ :: rest, n => if m == n then some ms else findEnum rest n
  | _ :: rest, n => findEnum rest n

/-- The reference fallback chain of tsTypeToString for a parameterless
type reference: a registered interface is embedded by value (object
spread copy), then a type alias by its resolved type, then an enum as an
enumRef carrying the materialized members, and otherwise the bare name
string is returned. -/
def resolveRef (n : String) (reg : List RegEntry) : JType :=
  match findIface reg n with
  | some (ps, ii) => .shape ps ii
  | none =>
      match findAlias reg n with
      | some t => t
      | none =>
          match findEnum reg n with
          | some ms => .enumRefT n ms
          | none => .prim n

mutual
/-- A type-annotation syntax node as the external parser hands it to
tsTypeToString: the primitive keywords, literal types, template-literal
types, type references with their type arguments (qualified names are
modelled as the already-joined name string), unions, intersections,
object type literals, tuples, array types, function types, and a default
constructor carrying the node type string for everything else. -/
inductive TsSyn where
  | nullKw
  | undefinedKw
  | bigintKw
  | symbolKw
  | stringKw
  | numberKw
  | booleanKw
  | voidKw
  | neverKw
  | anyKw
  | unknownKw
  | objectKw
  | literalType (l : JLit)
  | templateLitType
  | typeRef (name : String) (args : List TsSyn)
  | unionType (ts : List TsSyn)
  | intersectionType (ts : List TsSyn)
  | typeLiteral (ms : List TsMember)
  | tupleType (els : List TsTupleElS)
  | arrayType (el : TsSyn)
  | funcType
  | unrecognized (nodeType : String)

/-- A member of an object type literal or interface body: property
signature (with optional flag; the readonly marker only feeds the skipped
metadata and is left out), index signature, method signature (whose
params and return type no consumer reads), call and construct signatures
(stored under skipped metadata keys). -/
inductive TsMember where
  | propSig (name : String) (optional : Bool) (ann : TsSyn)
  | indexSig (keyAnn : TsSyn) (valAnn : TsSyn)
  | methodSig (name : String)
  | callSig
  | constructSig

/-- A tuple-type element: labeled, rest, optional, or plain. -/
inductive TsTupleElS where
  | namedElS (label : String) (optional : Bool) (ann : TsSyn)
  | restElS (ann : TsSyn)
  | optElS (ann : TsSyn)
  | plainElS (ann : TsSyn)
end

mutual
/-- tsTypeToString (parser source lines 14-377).  Keywords map to their
strings; literal types keep their value; a type reference dispatches over
the built-in generics (Array, ReadonlyArray, Map with exactly two
arguments, Set, Record with exactly two) and the utility types (kept as
opaque kind-tagged nodes, since nothing downstream reads their payload),
any other parameterized reference becomes a generic node, and a bare
reference resolves through the registry or falls back to its name string;
object literals build a shape; unrecognized node types return the string
unknown. -/
def tsTypeToString (syn : TsSyn) (reg : List RegEntry) : JType :=
  match syn with
  | .nullKw => .prim "null"
  | .undefinedKw => .prim "undefined"
  | .bigintKw => .prim "bigint"
  | .symbolKw => .prim "symbol"
  | .stringKw => .prim "string"
  | .numberKw => .prim "number"
  | .booleanKw => .prim "boolean"
  | .voidKw => .prim "void"
  | .neverKw => .prim "never"
  | .anyKw => .prim "any"
  | .unknownKw => .prim "unknown"
  | .objectKw => .prim "object"
  | .literalType l => .lit l
  | .templateLitType => .other "templateLiteral"
  | .typeRef n args =>
      (match args with
       | [] => resolveRef n reg
       | a :: rest =>
           if n == "Array" then .arrayT (tsTypeToString a reg)
           else if n == "ReadonlyArray" then .roArrayT (tsTypeToString a reg)
           else if n == "Map" then
             (match rest with
              | [b] => .mapT (tsTypeToString a reg) (tsTypeToString b reg)
              | _ => .other "generic")
           else if n == "Set" then .setT (tsTypeToString a reg)
           else if n == "Promise" then .other "promise"
           else if n == "Partial" then .other "partial"
           else if n == "Required" then .other "required"
           else if n == "Readonly" then .other "readonly"
           else if n == "Pick" then
             (match rest with
              | [_] => .other "pick"
              | _ => .other "generic")
           else if n == "Omit" then
             (match rest with
              | [_] => .other "omit"
              | _ => .other "generic")
           else if n == "Record" then
             (match rest with
              | [b] => .recordT (tsTypeToString a reg) (tsTypeToString b reg)
              | _ => .other "generic")
           else if n == "Exclude" then
             (match rest with
              | [_] => .other "exclude"
              | _ => .other "generic")
           else if n == "Extract" then
             (match rest with
              | [_] => .other "extract"
              | _ => .other "generic")
           else if n == "NonNullable" then .other "nonNullable"
           else if n == "ReturnType" then .other "returnType"
           else if n == "Parameters" then .other "parameters"
           else if n == "Awaited" then .other "awaited"
           else .other "generic")
  | .unionType ts => .union (ttsList ts reg)
  | .intersectionType ts => .inter (ttsList ts reg)
  | .typeLiteral ms =>
      (match ttsMembers ms reg with
       | (ps, ii) => .shape ps ii)
  | .tupleType els => .tupleT (ttsTupleEls els reg)
  | .arrayType el => .arrayT (tsTypeToString el reg)
  | .funcType => .other "function"
  | .unrecognized _ => .prim "unknown"
termination_by structural syn

def ttsList (ts : List TsSyn) (reg : List RegEntry) : List JType :=
  match ts with
  | [] => []
  | t :: rest => tsTypeToString t reg :: ttsList rest reg
termination_by structural ts

/-- The member walk shared by TSTypeLiteral and interface bodies, filling
one raw JS object by shape[name] = type assignments: all keys share one
namespace, so a duplicated name keeps its first position with its last
assigned type (insertShapeKey), and a property or method declared under
the name __indexSignature occupies the very slot an index-signature
member writes - the last writer of the slot wins, and every consumer
reads the occupant as the index signature.  An optional property is
wrapped in the optional kind, a method becomes an opaque method node,
call and construct signatures only feed skipped metadata keys. -/
def ttsMembers (ms : List TsMember) (reg : List RegEntry) :
    List (String × JType) × Option ISig :=
  match ms with
  | [] => ([], none)
  | m :: rest =>
      (match ttsMembers rest reg with
       | (ps, ii) =>
         match m with
         | .propSig name o ann =>
             if name == "__indexSignature" then
               (ps,
                match ii with
                | some x => some x
                | none =>
                    some (.nodeSlot
                      (if o then .opt (tsTypeToString ann reg)
                       else tsTypeToString ann reg)))
             else
               (insertShapeKey name
                 (if o then .opt (tsTypeToString ann reg)
                  else tsTypeToString ann reg) ps, ii)
         | .indexSig ka va =>
             (ps,
              match ii with
              | some x => some x
              | none => some (.mk (tsTypeToString ka reg) (tsTypeToString va reg)))
         | .methodSig name =>
             if name == "__indexSignature" then
               (ps,
                match ii with
                | some x => some x
                | none => some (.nodeSlot (.other "method")))
             else (insertShapeKey name (.other "method") ps, ii)
         | .callSig => (ps, ii)
         | .constructSig => (ps, ii))
termination_by structural ms

def ttsTupleEls (els : List TsTupleElS) (reg : List RegEntry) : List TupleEl :=
  match els with
  | [] => []
  | .namedElS lb o ann :: rest =>
      .labeledEl lb o (tsTypeToString ann reg) :: ttsTupleEls rest reg
  | .restElS ann :: rest => .restEl (tsTypeToString ann reg) :: ttsTupleEls rest reg
  | .optElS ann :: rest => .optEl (tsTypeToString ann reg) :: ttsTupleEls rest reg
  | .plainElS ann :: rest => .plainEl (tsTypeToString ann reg) :: ttsTupleEls rest reg
termination_by structural els
end

/-- tsTypeToString applied to a possibly missing annotation: the missing
case hits the falsy-argument guard and yields the string unknown. -/
def ttsOpt (o : Option TsSyn) (reg : List RegEntry) : JType :=
  match o with
  | none => .prim "unknown"
  | some s => tsTypeToString s reg

/-- An enum member initializer as parseCode inspects it: a literal, a
unary minus applied to a numeric literal, or any other expression (which
leaves the member unmaterialized). -/
inductive EnumInit where
  | litI (l : JLit)
  | negI (n : Int)
  | otherI

/-- The enum materialization loop of parseCode (parser source lines
394-413), threading the auto-increment counter: a numeric literal sets
the counter one past itself, a negative literal materializes the negated
number and advances the counter past it, a string (or boolean) literal
assigns without touching the counter, a member without initializer takes
the counter and post-increments it, and any other initializer expression
assigns nothing and leaves the counter alone. -/
def materializeEnumAux (auto : Int) : List (String × Option EnumInit) →
    List (String × JLit)
  | [] => []
  | (n, some (.litI l)) :: rest =>
      (n, l) :: materializeEnumAux
        (match l with
         | .num v => v + 1
         | _ => auto) rest
  | (n, some (.negI x)) :: rest =>
      (n, .num (-x)) :: materializeEnumAux (-x + 1) rest
  | (_, some .otherI) :: rest => materializeEnumAux auto rest
  | (n, none) :: rest => (n, .num auto) :: materializeEnumAux (auto + 1) rest

def materializeEnum (ms : List (String × Option EnumInit)) : List (String × JLit) :=
  materializeEnumAux 0 ms

/-- A function parameter as it appears in syntax: a plain (possibly
annotated, possibly optional) identifier, a rest parameter, or the this
pseudo-parameter. -/
inductive FSig where
  | plainP (name : String) (ann : Option TsSyn) (optional : Bool)
  | restP (name : String) (ann : Option TsSyn)
  | thisP (ann : Option TsSyn)

/-- A top-level declaration as the two passes of parseCode classify the
statements of the tree.  The isConst flag of a variable folds the
declared kind and the as-const check; hasTypeParams on a function stands
for a nonempty type-parameter list. -/
inductive Decl where
  | enumDecl (name : String) (members : List (String × Option EnumInit))
      (isConst : Bool)
  | interfaceDecl (name : String) (members : List TsMember)
  | typeAliasDecl (name : String) (ann : TsSyn)
  | varDeclD (name : String) (ann : Option TsSyn) (isConst : Bool)
  | funcDeclD (name : String) (params : List FSig) (retAnn : Option TsSyn)
      (hasTypeParams : Bool)
  | classDeclD (name : String)
  | otherDecl

/-- Bare alias-name resolution applied after translating a variable,
parameter or return annotation: when the translation is a string, a type
alias of that name replaces it. -/
def resolveAliasIfString (t : JType) (reg : List RegEntry) : JType :=
  match t with
  | .prim s =>
      (match findAlias reg s with
       | some a => a
       | none => .prim s)
  | t => t

/-- Parameter translation of the function branch of pass 2: rest
parameters keep a dot-dot-dot name prefix, the this pseudo-parameter is
marked, an annotated plain parameter resolves aliases, and an
unannotated plain parameter is dropped (the source maps it to null and
filters it out). -/
def translateParams (reg : List RegEntry) : List FSig → List FParam
  | [] => []
  | .restP n ann :: rest =>
      ⟨"..." ++ n, ttsOpt ann reg, false, false⟩ :: translateParams reg rest
  | .thisP ann :: rest =>
      ⟨"this", ttsOpt ann reg, false, true⟩ :: translateParams reg rest
  | .plainP n (some ann) o :: rest =>
      ⟨n, resolveAliasIfString (tsTypeToString ann reg) reg, o, false⟩ ::
        translateParams reg rest
  | .plainP _ none _ :: rest => translateParams reg rest

/-- Pass 1 of parseCode: enums, interfaces and type aliases are collected
in declaration order, each translated against the registry as it stands
(so references resolve only to earlier definitions). -/
def pass1 (reg : List RegEntry) : List Decl → List RegEntry
  | [] => reg
  | d :: rest =>
      match d with
      | .enumDecl n ms c => pass1 (reg ++ [.enumE n (materializeEnum ms) c]) rest
      | .interfaceDecl n ms =>
          (match ttsMembers ms reg with
           | (ps, ii) => pass1 (reg ++ [.ifaceE n ps ii]) rest)
      | .typeAliasDecl n ann =>
          pass1 (reg ++ [.aliasE n (tsTypeToString ann reg)]) rest
      | _ => pass1 reg rest

/-- Pass 2 of parseCode: variables with an annotation, functions (pushed
only when they have at least one translated parameter, a non-any return
type, or type parameters) and classes, appended to the same registry. -/
def pass2 (reg : List RegEntry) : List Decl → List RegEntry
  | [] => reg
  | d :: rest =>
      match d with
      | .varDeclD n (some ann) c =>
          pass2 (reg ++ [.varE n (resolveAliasIfString (tsTypeToString ann reg) reg) c])
            rest
      | .funcDeclD n ps ra htp =>
          let params := translateParams reg ps
          let ret :=
            match ra with
            | none => JType.prim "any"
            | some a => resolveAliasIfString (tsTypeToString a reg) reg
          if params.length > 0 || !(isAnyPrim ret) || htp then
            pass2 (reg ++ [.funcE n params ret]) rest
          else pass2 reg rest
      | .classDeclD n => pass2 (reg ++ [.classE n]) rest
      | _ => pass2 reg rest

/-- parseCode: pass 1 collects all definitions, then pass 2 walks the
same statement list resolving usages against them, growing one registry
list.  The model walks the top-level statements; the source walks every
tree node, which for the programs the claims exercise is the same. -/
def parseCode (ds : List Decl) : List RegEntry :=
  pass2 (pass1 [] ds) ds

/-! ## Static analyzer top level -/

/-- A statement as the analyzer walk classifies the nodes it reacts to:
a variable declarator with its initializer, a function (declaration or
expression) with its optional name and body, a return statement, and
anything else. -/
inductive AStmt where
  | varDecl (name : String) (init : Option VNode)
  | funcDecl (idName : Option String) (body : List AStmt)
  | retStmt (arg : Option VNode)
  | otherStmt

/-- The varTypes and funcReturnTypes maps are built with plain property
assignment, so a later entry of the same name overwrites an earlier
one. -/
def lookupLastTy (l : List (String × JType)) (k : String) : Option JType :=
  l.foldl (fun acc p => if p.fst == k then some p.snd else acc) none

def varTypesOf (reg : List RegEntry) : List (String × JType) :=
  reg.filterMap (fun e =>
    match e with
    | .varE n t _ => some (n, t)
    | _ => none)

/-- funcReturnTypes keeps only functions whose recorded return type is
not the string any. -/
def funcRetOf (reg : List RegEntry) : List (String × JType) :=
  reg.filterMap (fun e =>
    match e with
    | .funcE n _ ret => if isAnyPrim ret then none else some (n, ret)
    | _ => none)

/-- The variable-initializer check of the analyzer walk: a literal is
judged by the private matcher with a message naming the variable, an
object literal goes to checkObject, an array literal to checkType. -/
def varDeclErrors (vt : List (String × JType)) (name : String) (init : VNode) :
    List String :=
  match lookupLastTy vt name with
  | none => []
  | some dt =>
      match init with
      | .literalN v =>
          if anMatchesType v dt then []
          else ["[Static type error] Variable \x27" ++ name ++ "\x27 initializer " ++
                jsonStringify v ++ " does not match type " ++ anTypeToString dt]
      | .objectN props => checkObject name props dt
      | .arrayN els => checkType name (.arrayN els) dt
      | _ => []

/-- The return-statement check: a literal argument is judged against the
tracked return type, and a void return type flags any non-identifier
argument. -/
def retErrors (f : String) (arg : VNode) (rt : JType) : List String :=
  (match arg with
   | .literalN v =>
       if anMatchesType v rt then []
       else ["[Static type error] Function \x27" ++ f ++ "\x27 returns " ++
             jsonStringify v ++ " which doesn\x27t match return type " ++
             anTypeToString rt]
   | _ => []) ++
  (if isVoidPrim rt && !(isIdentN arg) then
    ["[Static type error] Function \x27" ++ f ++
     "\x27 has void return type but returns a value"]
   else [])

/-- The current-function slot after the walk leaves a statement: leaving
any function node resets the slot to null unconditionally (so statements
following a function see an empty slot even inside an enclosing
function); other statements leave it unchanged. -/
def curAfter (cur : Option String) : AStmt → Option String
  | .funcDecl _ _ => none
  | _ => cur

mutual
/-- The diagnostics one statement contributes during the analyzer walk:
entering a function sets the slot to its name (null when anonymous) for
its body; a variable declarator with an initializer is checked against
the declared type; a return statement is checked against the tracked
return type of the current named function. -/
def anStmt (vt fr : List (String × JType)) (cur : Option String) (s : AStmt) :
    List String :=
  match s with
  | .funcDecl idName body => anStmts vt fr idName body
  | .varDecl name (some init) => varDeclErrors vt name init
  | .varDecl _ none => []
  | .retStmt (some arg) =>
      (match cur with
       | some f =>
           (match lookupLastTy fr f with
            | some rt => retErrors f arg rt
            | none => [])
       | none => [])
  | .retStmt none => []
  | .otherStmt => []
termination_by structural s

/-- The analyzer walk over a statement list, threading the
current-function slot and emitting diagnostics in source order. -/
def anStmts (vt fr : List (String × JType)) (cur : Option String)
    (ss : List AStmt) : List String :=
  match ss with
  | [] => []
  | s :: rest => anStmt vt fr cur s ++ anStmts vt fr (curAfter cur s) rest
termination_by structural ss
end

/-- The errors array staticAnalyze accumulates (and prints), in order. -/
def staticAnalyzeErrors (reg : List RegEntry) (prog : List AStmt) : List String :=
  anStmts (varTypesOf reg) (funcRetOf reg) none prog

/-- staticAnalyze (analyzer source line 381): the function returns the
boolean errors.length === 0, not the list. -/
def staticAnalyze (reg : List RegEntry) (prog : List AStmt) : Bool :=
  (staticAnalyzeErrors reg prog).isEmpty

/-! ## Transform and emit (transformAst and generate of src/generator) -/

/-- A function parameter node of the program tree: its name, whether a
type annotation is still attached, its optional flag, and whether it is a
rest parameter. -/
structure MParam where
  name : String
  ann : Bool
  optional : Bool
  isRest : Bool

/-- An expression node, as far as the transform looks at one. -/
inductive MExpr where
  | identE (s : String)
  | litE (l : JLit)
  | otherE

/-- A statement node of the program tree: the three type-only
declarations, function declarations, returns, variable declarations, and
two node forms that only the transform itself introduces - guardS stands
for the statements obtained by parsing the nonempty guard fragment
compileCheck returned for the given target, type and diagnostic path, and
constS for a generated const binding of one identifier to another. -/
inductive MStmt where
  | tsInterfaceS (name : String)
  | tsTypeAliasS (name : String)
  | tsEnumS (name : String)
  | funcS (name : String) (params : List MParam) (body : List MStmt)
  | retS (arg : Option MExpr)
  | varS (name : String) (ann : Bool) (init : Option MExpr)
  | guardS (target : String) (t : JType) (path : String)
  | constS (name : String) (initName : String)
  | otherS

/-- The top-level filter of transformAst: interface, type-alias and enum
declarations are dropped from ast.body (and only there). -/
def notTsDecl : MStmt → Bool
  | .tsInterfaceS _ => false
  | .tsTypeAliasS _ => false
  | .tsEnumS _ => false
  | _ => true

mutual
/-- The stripping walk of transformAst: type annotations, optional flags
and the this pseudo-parameter are removed everywhere, in both modes. -/
def stripStmt (s : MStmt) : MStmt :=
  match s with
  | .funcS name params body =>
      .funcS name
        ((params.filter (fun p => p.name != "this")).map
          (fun p => { p with ann := false, optional := false }))
        (stripList body)
  | .varS name _ init => .varS name false init
  | s => s
termination_by structural s

def stripList (ss : List MStmt) : List MStmt :=
  match ss with
  | [] => []
  | s :: rest => stripStmt s :: stripList rest
termination_by structural ss
end

/-- The funcTypes map of transformAst, built by assignment over the
registry, so a later function entry of the same name overwrites an
earlier one. -/
def funcTypesLookup (reg : List RegEntry) (n : String) :
    Option (List FParam × JType) :=
  reg.foldl (fun acc e =>
    match e with
    | .funcE m ps ret => if m == n then some (ps, ret) else acc
    | _ => acc) none

/-- p.name.replace of the leading dot-dot-dot of a rest parameter. -/
def stripDots (s : String) : String :=
  if strStartsWith s "..." then strDrop s 3 else s

/-- The guard statements inserted at function entry: one parsed guard
fragment per non-this registry parameter whose compiled check is
nonempty, checking the renamed argument with the original parameter name
as diagnostic path. -/
def gatherChecks : List FParam → List MStmt
  | [] => []
  | p :: rest =>
      (if p.isThis then []
       else if checkEmits p.type then
        [MStmt.guardS ("__arg_" ++ stripDots p.name) p.type (stripDots p.name)]
       else []) ++ gatherChecks rest

/-- The rebinding statements const x = __arg_x for every non-this
registry parameter, emitted after the checks. -/
def gatherRestores : List FParam → List MStmt
  | [] => []
  | p :: rest =>
      (if p.isThis then []
       else [MStmt.constS (stripDots p.name) ("__arg_" ++ stripDots p.name)]) ++
      gatherRestores rest

/-- The positional parameter renaming: a tree parameter is renamed to
__arg_ plus its name when the registry parameter at the same index exists
and is not this (the registry list still contains the this entry the
stripping walk removed from the tree, so a this-typed function renames
against shifted indices, exactly as the source does). -/
def renameParams (params : List MParam) (fps : List FParam) : List MParam :=
  params.mapIdx (fun i p =>
    match fps[i]? with
    | some fp =>
        if !fp.isThis then
          (if p.name == "this" then p else { p with name := "__arg_" ++ p.name })
        else p
    | none => p)

mutual
/-- The check-injection walk of transformAst (generator.js lines
876-979).  It does not branch on the mode: the mode only reaches
compileCheck, which ignores it.  For each function declaration with a
registry entry carrying at least one parameter, the guards and the
rebindings are prepended to the body and the parameters renamed.  The
return-statement instrumentation of the source (lines 951-977) tests
parent.parent, a property neither the parser nor the tree walker
provides, so it never fires and has no counterpart here. -/
def injectStmt (reg : List RegEntry) (s : MStmt) : MStmt :=
  match s with
  | .funcS name params body =>
      (match funcTypesLookup reg name with
       | some (fps, _) =>
          if fps.length > 0 then
            .funcS name (renameParams params fps)
              (gatherChecks fps ++ gatherRestores fps ++ injectList reg body)
          else .funcS name params (injectList reg body)
       | none => .funcS name params (injectList reg body))
  | s => s
termination_by structural s

def injectList (reg : List RegEntry) (ss : List MStmt) : List MStmt :=
  match ss with
  | [] => []
  | s :: rest => injectStmt reg s :: injectList reg rest
termination_by structural ss
end

/-- transformAst (generator.js lines 787-982): drop the type-only
declarations from the top level, strip type syntax everywhere, then
inject the guards.  The mode parameter is accepted and never used - the
source has no production short-circuit in this version. -/
def transformAst (ast : List MStmt) (reg : List RegEntry) (_mode : String) :
    List MStmt :=
  injectList reg (stripList (ast.filter notTsDecl))

/-- The helper prelude up to the point where the mode is interpolated
into const __TPJS_MODE__. -/
def helpersHead : String :=
  "\n// ===== TypedJS Runtime Helpers =====\nconst __TPJS_MODE__ = \""

/-- The helper prelude after the mode interpolation: the closing quote
and the fixed source text of __TPJS_COLORS__, typeToString,
__handleCheckError__, __checkUnion__, __matchesType__ and __valueStr__.
That text is a constant of the source with no further interpolations; no
claim inspects its contents, only its unconditional presence, so the
model elides it to a marker line. -/
def helpersTail : String :=
  "\";\n" ++
  "// [fixed helper text: __TPJS_COLORS__, typeToString, __handleCheckError__, " ++
  "__checkUnion__, __matchesType__, __valueStr__]\n" ++
  "// ===== End TypedJS Runtime Helpers =====\n"

/-- The display of one enum member value in the materialized runtime
object: strings are JSON-quoted, numbers and booleans interpolate
plainly. -/
def enumValStr : JLit → String
  | .str s => "\"" ++ s ++ "\""
  | .num n => toString n
  | .bool b => if b then "true" else "false"

/-- The materialized enum objects (generator.js lines 994-1002): one
const per enum registry entry, members in order, joined with blank
lines. -/
def enumDefsStr (reg : List RegEntry) : String :=
  String.intercalate "\n\n"
    (reg.filterMap (fun e =>
      match e with
      | .enumE n ms _ =>
          some ("const " ++ n ++ " = \x7b\n" ++
            String.intercalate ",\n"
              (ms.map (fun p => "  " ++ p.fst ++ ": " ++ enumValStr p.snd)) ++
            "\n\x7d;")
      | _ => none))

/-- generate (generator.js lines 984-1177): transform the tree, print it
through the external printer (escodegen, taken as a parameter), and
return the helper prelude with the mode baked in, the enum objects, and
the printed program - unconditionally, in every mode. -/
def generate (printer : List MStmt → String) (ast : List MStmt)
    (reg : List RegEntry) (mode : String) : String :=
  let transformed := printer (transformAst ast reg mode)
  (helpersHead ++ mode ++ helpersTail) ++ "\n" ++ enumDefsStr reg ++ "\n" ++ transformed

/-! ## Derived predicates used by the statements -/

mutual
/-- The fragment of TypeNodes on which the compiled guard and the runtime
matcher provably agree: recognized primitive strings, literals, optionals,
unions (where the guard defers to the matcher), intersections of
agreeing members, arrays, tuples with no element after a rest element,
records, maps, sets, enum references, and the opaque unmodeled kinds.
Object shapes and bare unresolved reference strings are outside: shapes
because the guard additionally rejects arrays and enforces the index
signature the matcher ignores, references because the guard erases them
while the matcher rejects every value. -/
def agreeable (t : JType) : Bool :=
  match t with
  | .prim s =>
      s == "any" || s == "unknown" || s == "void" || s == "never" ||
      s == "null" || s == "undefined" || s == "object" || s == "array" ||
      s == "string" || s == "number" || s == "boolean" || s == "bigint" ||
      s == "symbol" || s == "function"
  | .lit _ => true
  | .opt t => agreeable t
  | .union _ => true
  | .inter ts => agAll ts
  | .arrayT t => agreeable t
  | .roArrayT t => agreeable t
  | .tupleT els => agEls els
  | .shape _ _ => false
  | .recordT _ vt => agreeable vt
  | .mapT kt vt => agreeable kt && agreeable vt
  | .setT t => agreeable t
  | .enumRefT _ _ => true
  | .other _ => true
termination_by structural t

def agAll (ts : List JType) : Bool :=
  match ts with
  | [] => true
  | t :: rest => agreeable t && agAll rest
termination_by structural ts

def agEls (els : List TupleEl) : Bool :=
  match els with
  | [] => true
  | .restEl t :: rest => agreeable t && rest.isEmpty
  | .plainEl t :: rest => agreeable t && agEls rest
  | .optEl t :: rest => agreeable t && agEls rest
  | .labeledEl _ _ t :: rest => agreeable t && agEls rest
termination_by structural els
end

/-- TypeNodes whose compiled guard is a single conditional hook call with
the same acceptance condition as the matcher: recognized primitive
strings, literal types, unions, and enum references. -/
def atomicCheckType : JType → Bool
  | .prim s =>
      s == "any" || s == "unknown" || s == "void" || s == "never" ||
      s == "null" || s == "undefined" || s == "object" || s == "array" ||
      s == "string" || s == "number" || s == "boolean" || s == "bigint" ||
      s == "symbol" || s == "function"
  | .lit _ => true
  | .union _ => true
  | .enumRefT _ _ => true
  | _ => false

/-- The counter value after the enum materialization loop has consumed a
member list, starting from the given counter. -/
def autoAfter (auto : Int) : List (String × Option EnumInit) → Int
  | [] => auto
  | (_, some (.litI l)) :: rest =>
      autoAfter
        (match l with
         | .num v => v + 1
         | _ => auto) rest
  | (_, some (.negI x)) :: rest => autoAfter (-x + 1) rest
  | (_, some .otherI) :: rest => autoAfter auto rest
  | (_, none) :: rest => autoAfter (auto + 1) rest

/-- The most recently assigned numeric value in a materialized member
list: the rightmost numeric member value, if any. -/
def lastNumOf : List (String × JLit) → Option Int
  | [] => none
  | (_, l) :: rest =>
      match lastNumOf rest with
      | some n => some n
      | none =>
          match l with
          | .num n => some n
          | _ => none

/-- The (kind, name) keys pass 1 pushes, one per definition declaration,
in order. -/
def p1Keys (ds : List Decl) : List (String × String) :=
  ds.filterMap (fun d =>
    match d with
    | .enumDecl n _ _ => some ("enum", n)
    | .interfaceDecl n _ => some ("interface", n)
    | .typeAliasDecl n _ => some ("typeAlias", n)
    | _ => none)

/-- The (kind, name) keys pass 2 pushes against a given definition
registry: annotated variables, functions meeting the push condition, and
classes, in order. -/
def p2Keys (reg : List RegEntry) (ds : List Decl) : List (String × String) :=
  ds.filterMap (fun d =>
    match d with
    | .varDeclD n (some _) _ => some ("variable", n)
    | .funcDeclD n ps ra htp =>
        if (translateParams reg ps).length > 0 ||
           !(isAnyPrim
              (match ra with
               | none => JType.prim "any"
               | some a => resolveAliasIfString (tsTypeToString a reg) reg)) ||
           htp then
          some ("function", n)
        else none
    | .classDeclD n => some ("class", n)
    | _ => none)

/-- Whether a registry entry is one of the pass-1 definition kinds that
the reference lookups consult. -/
def isDefEntry : RegEntry → Bool
  | .enumE _ _ _ => true
  | .ifaceE _ _ _ => true
  | .aliasE _ _ => true
  | _ => false

/-- A literal-union registry and a typed function, used as the concrete
production-mode input of the transform claims. -/
def dirDemo : JType :=
  .union [.lit (.str "up"), .lit (.str "down"), .lit (.str "left"), .lit (.str "right")]

def c2demoReg : List RegEntry :=
  [.funcE "move" [⟨"d", dirDemo, false, false⟩] dirDemo,
   .enumE "Color" [("Red", .num 0)] false]

def c2demoAst : List MStmt :=
  [.funcS "move" [⟨"d", true, false, false⟩] [.retS (some (.identE "d"))]]

/-! ## Helper lemmas -/

theorem listIsEmptyAppend (l1 l2 : List α) :
    (l1 ++ l2).isEmpty = (l1.isEmpty && l2.isEmpty) := by
  cases l1 <;> cases l2 <;> simp

theorem listIsEmptyFlatMap (xs : List α) (f : α → List β) :
    (xs.flatMap f).isEmpty = xs.all (fun x => (f x).isEmpty) := by
  induction xs with
  | nil => simp
  | cons x rest ih => simp [List.flatMap_cons, listIsEmptyAppend, ih]

theorem listNeNilIffIsEmptyFalse (l : List α) : l ≠ [] ↔ l.isEmpty = false := by
  cases l <;> simp

/-- The enum materialization loop distributes over append, threading the
counter. -/
theorem materializeEnumAux_append (auto : Int)
    (xs ys : List (String × Option EnumInit)) :
    materializeEnumAux auto (xs ++ ys) =
      materializeEnumAux auto xs ++ materializeEnumAux (autoAfter auto xs) ys := by
  induction xs generalizing auto with
  | nil => simp [materializeEnumAux, autoAfter]
  | cons m rest ih =>
      obtain ⟨n, oi⟩ := m
      match oi with
      | some (.litI l) =>
          cases l <;> simp [materializeEnumAux, autoAfter, ih]
      | some (.negI x) => simp [materializeEnumAux, autoAfter, ih]
      | some .otherI => simp [materializeEnumAux, autoAfter, ih]
      | none => simp [materializeEnumAux, autoAfter, ih]

/-- The counter invariant of the materialization loop: after consuming a
member list the counter is one past the most recently assigned numeric
value, or the starting counter when no numeric value was assigned. -/
theorem autoAfter_lastNum (ms : List (String × Option EnumInit)) (auto : Int) :
    autoAfter auto ms =
      (lastNumOf (materializeEnumAux auto ms)).elim auto (· + 1) := by
  induction ms generalizing auto with
  | nil => simp [autoAfter, materializeEnumAux, lastNumOf]
  | cons m rest ih =>
      obtain ⟨n, oi⟩ := m
      match oi with
      | some (.litI l) =>
          cases l with
          | num v =>
              simp only [autoAfter, materializeEnumAux, lastNumOf]
              rw [ih]
              cases lastNumOf (materializeEnumAux (v + 1) rest) <;> simp
          | str s =>
              simp only [autoAfter, materializeEnumAux, lastNumOf]
              rw [ih]
              cases lastNumOf (materializeEnumAux auto rest) <;> simp
          | bool b =>
              simp only [autoAfter, materializeEnumAux, lastNumOf]
              rw [ih]
              cases lastNumOf (materializeEnumAux auto rest) <;> simp
      | some (.negI x) =>
          simp only [autoAfter, materializeEnumAux, lastNumOf]
          rw [ih]
          cases lastNumOf (materializeEnumAux (-x + 1) rest) <;> simp
      | some .otherI =>
          simp only [autoAfter, materializeEnumAux, lastNumOf]
          rw [ih]
      | none =>
          simp only [autoAfter, materializeEnumAux, lastNumOf]
          rw [ih]
          cases lastNumOf (materializeEnumAux (auto + 1) rest) <;> simp

/-- C10: in parseCode, an enum member with no initializer is materialized
with the auto-incremented integer: 0 when no numeric value was assigned
among the members materialized before it, otherwise one greater than the
most recently assigned numeric value; a negative numeric literal
initializer materializes as the negated number and advances the counter
past it; a string initializer assigns its string without advancing the
counter, so a following uninitialized member still continues from the
last numeric value. -/
theorem c10_enum_materialization :
    ∀ (pre : List (String × Option EnumInit)) (name : String)
      (rest : List (String × Option EnumInit)),
    (materializeEnum (pre ++ (name, none) :: rest) =
       materializeEnum pre ++
         (name, .num ((lastNumOf (materializeEnum pre)).elim 0 (· + 1))) ::
         materializeEnumAux ((lastNumOf (materializeEnum pre)).elim 0 (· + 1) + 1) rest)
    ∧ (∀ x : Int,
        materializeEnum (pre ++ (name, some (.negI x)) :: rest) =
          materializeEnum pre ++ (name, .num (-x)) :: materializeEnumAux (-x + 1) rest)
    ∧ (∀ (s : String) (k2 : String) (rest2 : List (String × Option EnumInit)),
        materializeEnum (pre ++ (name, some (.litI (.str s))) :: (k2, none) :: rest2) =
          materializeEnum pre ++ (name, .str s) ::
            (k2, .num ((lastNumOf (materializeEnum pre)).elim 0 (· + 1))) ::
            materializeEnumAux ((lastNumOf (materializeEnum pre)).elim 0 (· + 1) + 1)
              rest2) := by
  intro pre name rest
  refine ⟨?_, ?_, ?_⟩
  · rw [materializeEnum, materializeEnum, materializeEnumAux_append,
      autoAfter_lastNum]
    simp [materializeEnumAux]
  · intro x
    rw [materializeEnum, materializeEnum, materializeEnumAux_append]
    simp [materializeEnumAux]
  · intro s k2 rest2
    rw [materializeEnum, materializeEnum, materializeEnumAux_append,
      autoAfter_lastNum]
    simp [materializeEnumAux]


/-- C4 counterexample: on the program let age: number = "25" the analyzer
accumulates exactly one ordered diagnostic internally but returns the
boolean false (errors.length === 0), not the list of diagnostic strings
the claim promises. -/
theorem c4_counterexample :
    staticAnalyze [RegEntry.varE "age" (.prim "number") false]
      [.varDecl "age" (some (.literalN (.str "25")))] = false ∧
    staticAnalyzeErrors [RegEntry.varE "age" (.prim "number") false]
      [.varDecl "age" (some (.literalN (.str "25")))] =
      ["[Static type error] Variable \x27age\x27 initializer \"25\" does not match type number"] := by
  exact ⟨by decide, by decide⟩

/-- C4 (amended): staticAnalyze accumulates the ordered diagnostic list
internally, prints it, and returns only the boolean that the list is
empty; as a pure function of the registry and the tree it never mutates
its inputs, and re-running it on the same tree trivially yields the same
result. -/
theorem c4_analyzer_returns_ok_flag :
    ∀ (reg : List RegEntry) (prog : List AStmt),
    staticAnalyze reg prog = true ↔ staticAnalyzeErrors reg prog = [] := by
  intro reg prog
  rw [staticAnalyze, List.isEmpty_iff]

/-- C5 counterexample: a bare type reference that resolves to nothing in
the registry translates to its name string, and the runtime matcher then
rejects every value for it (typeof value is never the reference name)
instead of treating the unmodeled construct as always-matching, even
though the compiled guard erases it. -/
theorem c5_counterexample :
    tsTypeToString (.typeRef "T" []) [] = .prim "T" ∧
    matchesType (.num 1) (.prim "T") = false ∧
    checkEmits (.prim "T") = false ∧
    (guardErrs "x" "x" (.num 1) (.prim "T")).isEmpty = true := by
  refine ⟨rfl, by decide, by decide, by decide⟩

/-- C5 (amended): the type-node translation is total and any unrecognized
syntax node degrades to the string unknown, which both the matcher and
the compiled guard treat as always-matching (the guard is the empty
fragment); every unmodeled kind-tagged construct is likewise
always-matching for both, so compilation never aborts; but a bare
unresolved type reference translates to its name string, which the
compiled guard erases while the matcher rejects every value for it. -/
theorem c5_unknown_degrades_permissively :
    ∀ (nodeType : String) (reg : List RegEntry),
    tsTypeToString (.unrecognized nodeType) reg = .prim "unknown"
    ∧ (∀ v : JVal, matchesType v (.prim "unknown") = true)
    ∧ checkEmits (.prim "unknown") = false
    ∧ (∀ (vn p : String) (v : JVal), guardErrs vn p v (.prim "unknown") = [])
    ∧ (∀ (k : String) (v : JVal), matchesType v (.other k) = true)
    ∧ (∀ (k vn p : String) (v : JVal), guardErrs vn p v (.other k) = []) := by
  intro nodeType reg
  refine ⟨rfl, fun v => by simp [matchesType], by decide,
    fun vn p v => by simp [guardErrs], fun k v => by simp [matchesType],
    fun k vn p v => by simp [guardErrs, matchesType]⟩

/-- C6: for a two-member union, acceptance is the disjunction of the
members, short-circuiting: a value failing A but matching B passes the
runtime matcher, the compiled union guard (which defers to the matcher
through __checkUnion__) performs no hook call, and the static analyzer
accepts the literal, producing no diagnostic. -/
theorem c6_union_short_circuit :
    ∀ (A B : JType) (v : JVal) (vn p nm : String),
    matchesType v A = false → matchesType v B = true → anMatchesType v B = true →
    matchesType v (.union [A, B]) = true ∧
    guardErrs vn p v (.union [A, B]) = [] ∧
    anMatchesType v (.union [A, B]) = true ∧
    checkType nm (.literalN v) (.union [A, B]) = [] := by
  intro A B v vn p nm h1 h2 h3
  have hm : mtAny v [A, B] = true := by
    simp [mtAny, h2]
  have ha : anAny v [A, B] = true := by
    simp [anAny, h3]
  refine ⟨by simp [matchesType, hm], by simp [guardErrs, hm],
    by simp [anMatchesType, ha], ?_⟩
  rw [checkType]
  split
  · rfl
  · simp [anMatchesType, ha]

/-- C6 witness at the Direction-style scenario: the string oops fails the
literal up but matches string. -/
theorem c6_witness :
    matchesType (.str "oops") (.lit (.str "up")) = false ∧
    matchesType (.str "oops") (.prim "string") = true ∧
    anMatchesType (.str "oops") (.prim "string") = true ∧
    (matchesType (.str "oops") (.union [.lit (.str "up"), .prim "string"]) = true ∧
     guardErrs "x" "d" (.str "oops") (.union [.lit (.str "up"), .prim "string"]) = [] ∧
     anMatchesType (.str "oops") (.union [.lit (.str "up"), .prim "string"]) = true ∧
     checkType "d" (.literalN (.str "oops"))
       (.union [.lit (.str "up"), .prim "string"]) = []) :=
  ⟨by decide, by decide, by decide,
   c6_union_short_circuit (.lit (.str "up")) (.prim "string") (.str "oops") "x" "d" "d"
     (by decide) (by decide) (by decide)⟩

/-- Executing a guard in development mode warns for every hook call and
never throws: the result is the warning log in call order. -/
theorem runHook_development (errs : List ErrCall) :
    runHook "development" errs =
      .ok (errs.map (fun e =>
        "\x1b[33m[Type warning]\x1b[0m " ++
          (e.path ++ " expected " ++ e.expected ++ ", got " ++ valueStr e.value))) := by
  induction errs with
  | nil => rfl
  | cons e rest ih => simp [runHook, handleCheckError, ih]

/-- C3: for every compiled guard and mismatching value, the baked-in mode
decides the hook: in development every hook call logs a non-fatal warning
and execution continues with the original value rebound unchanged (the
ok result carries the untouched value and a nonempty warning log); in
production and in strict the first hook call throws a TypeError, aborting
the run. -/
theorem c3_mode_behavior :
    ∀ (vn p : String) (t : JType) (v : JVal),
    (guardErrs vn p v t).isEmpty = false →
    (∃ ws : List String, ws ≠ [] ∧
       guardRun "development" vn p t v = .ok (v, ws)) ∧
    (∀ m : String, m = "production" ∨ m = "strict" →
       ∃ msg : String, guardRun m vn p t v = .error msg) := by
  intro vn p t v h
  have hne : guardErrs vn p v t ≠ [] := (listNeNilIffIsEmptyFalse _).mpr h
  constructor
  · refine ⟨(guardErrs vn p v t).map (fun e =>
        "\x1b[33m[Type warning]\x1b[0m " ++
          (e.path ++ " expected " ++ e.expected ++ ", got " ++ valueStr e.value)),
      ?_, ?_⟩
    · intro hmap
      exact hne (List.map_eq_nil_iff.mp hmap)
    · rw [guardRun, runHook_development]
  · intro m hm
    cases herrs : guardErrs vn p v t with
    | nil => exact absurd herrs hne
    | cons e rest =>
        have hthrow :
            handleCheckError m e.path e.expected (valueStr e.value) =
              .thrown ("[TypedJS] " ++
                (e.path ++ " expected " ++ e.expected ++ ", got " ++
                  valueStr e.value)) := by
          rcases hm with rfl | rfl <;> rfl
        refine ⟨"[TypedJS] " ++
          (e.path ++ " expected " ++ e.expected ++ ", got " ++ valueStr e.value), ?_⟩
        rw [guardRun, herrs, runHook, hthrow]

/-- C3 witness: a string reaching a number-typed parameter guard. -/
theorem c3_witness :
    (guardErrs "x" "x" (.str "oops") (.prim "number")).isEmpty = false ∧
    ((∃ ws : List String, ws ≠ [] ∧
        guardRun "development" "x" "x" (.prim "number") (.str "oops") =
          .ok (.str "oops", ws)) ∧
     (∀ m : String, m = "production" ∨ m = "strict" →
        ∃ msg : String,
          guardRun m "x" "x" (.prim "number") (.str "oops") = .error msg)) :=
  ⟨by decide, c3_mode_behavior "x" "x" (.prim "number") (.str "oops") (by decide)⟩

/-- C2 (amended): production-mode output is not the stripped source only;
generate emits the runtime-helper prelude and the materialized enum
objects unconditionally, and transformAst injects guards and renames
parameters without branching on the mode, so the output in any mode
equals the development-mode output except for the mode string baked into
const __TPJS_MODE__. -/
theorem c2_production_equals_development_up_to_mode_string :
    ∀ (printer : List MStmt → String) (ast : List MStmt) (reg : List RegEntry)
      (mode : String),
    generate printer ast reg mode =
      helpersHead ++ (mode ++ (helpersTail ++ ("\n" ++ (enumDefsStr reg ++
        ("\n" ++ printer (transformAst ast reg "development")))))) := by
  intro printer ast reg mode
  simp [generate, transformAst, String.append_assoc]

set_option maxRecDepth 8000 in
/-- C2 counterexample: for a typed function and an enum, production-mode
output starts with the helper prelude, contains the materialized enum
object, and the transformed tree renames the parameter and injects the
compiled guard - refuting stripped-source-only output. -/
theorem c2_counterexample :
    generate (fun _ => "") c2demoAst c2demoReg "production" =
      ("\n// ===== TypedJS Runtime Helpers =====\nconst __TPJS_MODE__ = \"" ++
        "production") ++
        (helpersTail ++ "\n" ++ "const Color = \x7b\n  Red: 0\n\x7d;" ++ "\n" ++ "") ∧
    enumDefsStr c2demoReg = "const Color = \x7b\n  Red: 0\n\x7d;" ∧
    transformAst c2demoAst c2demoReg "production" =
      [.funcS "move" [⟨"__arg_d", false, false, false⟩]
        [.guardS "__arg_d" dirDemo "d", .constS "d" "__arg_d",
         .retS (some (.identE "d"))]] := by
  refine ⟨by decide, by decide, ?_⟩
  rfl

/-- The analyzer index-signature loop is unaffected by a declared
double-underscore property: a value key equal to it is checked anyway
(the double-underscore disjunct), and other keys see the same membership
test. -/
theorem coIdx_cons_dunder (nm k : String) (U : JType) (ps : List (String × JType))
    (vt : JType) (props : List (String × VNode))
    (hk : strStartsWith k "__" = true) :
    coIdx nm ((k, U) :: ps) vt props = coIdx nm ps vt props := by
  induction props with
  | nil => rw [coIdx, coIdx]
  | cons q rest ih =>
      obtain ⟨key, vnode⟩ := q
      rw [coIdx, coIdx, ih]
      by_cases hkey : (k == key) = true
      · have hkeq : k = key := beq_iff_eq.mp hkey
        subst hkeq
        simp [containsKeyTy, hk]
      · rw [Bool.not_eq_true] at hkey
        simp only [containsKeyTy, List.any_cons]
        have hc : (!(k == key || ps.any fun p => p.fst == key) ||
            strStartsWith key "__") = ((!ps.any fun p => p.fst == key) ||
            strStartsWith key "__") := by
          rw [hkey]
          simp
        simp only [hc]

/-- The analyzer loop against an absent value type is likewise unaffected
by a declared double-underscore property. -/
theorem coIdxMissing_cons_dunder (nm k : String) (U : JType)
    (ps : List (String × JType)) (props : List (String × VNode))
    (hk : strStartsWith k "__" = true) :
    coIdxMissing nm ((k, U) :: ps) props = coIdxMissing nm ps props := by
  induction props with
  | nil => rw [coIdxMissing, coIdxMissing]
  | cons q rest ih =>
      obtain ⟨key, vnode⟩ := q
      rw [coIdxMissing, coIdxMissing, ih]
      by_cases hkey : (k == key) = true
      · have hkeq : k = key := beq_iff_eq.mp hkey
        subst hkeq
        simp [containsKeyTy, hk]
      · rw [Bool.not_eq_true] at hkey
        simp only [containsKeyTy, List.any_cons]
        have hc : (!(k == key || ps.any fun p => p.fst == key) ||
            strStartsWith key "__") = ((!ps.any fun p => p.fst == key) ||
            strStartsWith key "__") := by
          rw [hkey]
          simp
        simp only [hc]

/-- C9 (amended): a declared property whose name starts with two
underscores - other than the distinguished key __indexSignature, which
names the index-signature slot itself, and within a property list free of
the kind key the consumers dispatch on - is skipped by the property walks
of the compiled guard, the runtime matcher and the analyzer, so without
an index signature any value is accepted for it; the counterexample shows
the two ways such a property is still not exempt from checking: a
declared property named __indexSignature occupies the index-signature
slot (a record-typed one makes the guard check every own key of the
value), and under an index signature the guard and the analyzer check the
double-underscore keys of the value against the signature value type,
while the matcher ignores index signatures entirely. -/
theorem c9_dunder_properties_skipped :
    ∀ (k : String) (U : JType) (ps : List (String × JType)) (isig : Option ISig)
      (vn p nm : String) (v : JVal) (props : List (String × VNode)),
    strStartsWith k "__" = true →
    (k == "__indexSignature") = false →
    containsKeyTy ps "kind" = false →
    containsKeyTy ps "__indexSignature" = false →
    guardErrs vn p v (.shape ((k, U) :: ps) isig) =
      guardErrs vn p v (.shape ps isig) ∧
    matchesType v (.shape ((k, U) :: ps) isig) = matchesType v (.shape ps isig) ∧
    checkObject nm props (.shape ((k, U) :: ps) isig) =
      checkObject nm props (.shape ps isig) := by
  intro k U ps isig vn p nm v props hk hki hpsk hpsi
  refine ⟨?_, ?_, ?_⟩
  · simp only [guardErrs]
    simp [gProps, hk]
  · simp [matchesType, mtProps, hk]
  · cases isig with
    | none => simp [checkObject, coProps, hk]
    | some ii =>
        cases ii with
        | mk kt vt =>
            simp [checkObject, coProps, hk, coIdx_cons_dunder nm k U ps vt props hk]
        | nodeSlot w =>
            cases w with
            | recordT kt vt =>
                simp [checkObject, coProps, hk,
                  coIdx_cons_dunder nm k U ps vt props hk]
            | mapT kt vt =>
                simp [checkObject, coProps, hk,
                  coIdx_cons_dunder nm k U ps vt props hk]
            | prim s =>
                simp [checkObject, coProps, hk,
                  coIdxMissing_cons_dunder nm k U ps props hk]
            | lit l =>
                simp [checkObject, coProps, hk,
                  coIdxMissing_cons_dunder nm k U ps props hk]
            | union ts =>
                simp [checkObject, coProps, hk,
                  coIdxMissing_cons_dunder nm k U ps props hk]
            | inter ts =>
                simp [checkObject, coProps, hk,
                  coIdxMissing_cons_dunder nm k U ps props hk]
            | opt t =>
                simp [checkObject, coProps, hk,
                  coIdxMissing_cons_dunder nm k U ps props hk]
            | arrayT t =>
                simp [checkObject, coProps, hk,
                  coIdxMissing_cons_dunder nm k U ps props hk]
            | roArrayT t =>
                simp [checkObject, coProps, hk,
                  coIdxMissing_cons_dunder nm k U ps props hk]
            | tupleT els =>
                simp [checkObject, coProps, hk,
                  coIdxMissing_cons_dunder nm k U ps props hk]
            | shape sp2 ii2 =>
                simp [checkObject, coProps, hk,
                  coIdxMissing_cons_dunder nm k U ps props hk]
            | setT t =>
                simp [checkObject, coProps, hk,
                  coIdxMissing_cons_dunder nm k U ps props hk]
            | enumRefT n2 vals =>
                simp [checkObject, coProps, hk,
                  coIdxMissing_cons_dunder nm k U ps props hk]
            | other kd =>
                simp [checkObject, coProps, hk,
                  coIdxMissing_cons_dunder nm k U ps props hk]

/-- C9 witness: a shape declaring a mistyped double-underscore property
without an index signature accepts any value for it at every layer. -/
theorem c9_witness :
    strStartsWith "__secret" "__" = true ∧
    ("__secret" == "__indexSignature") = false ∧
    (guardErrs "x" "p" (.obj [("__secret", .str "v")])
       (.shape [("__secret", .prim "number")] none) =
        guardErrs "x" "p" (.obj [("__secret", .str "v")]) (.shape [] none) ∧
     matchesType (.obj [("__secret", .str "v")])
       (.shape [("__secret", .prim "number")] none) =
        matchesType (.obj [("__secret", .str "v")]) (.shape [] none) ∧
     checkObject "u" [("__secret", .literalN (.str "v"))]
       (.shape [("__secret", .prim "number")] none) =
        checkObject "u" [("__secret", .literalN (.str "v"))] (.shape [] none)) :=
  ⟨by decide, by decide,
   c9_dunder_properties_skipped "__secret" (.prim "number") [] none "x" "p" "u"
     (.obj [("__secret", .str "v")]) [("__secret", .literalN (.str "v"))]
     (by decide) (by decide) (by decide) (by decide)⟩

/-- C9 counterexample: double-underscore properties are not exempt from
runtime checking.  First, a property declared under the name
__indexSignature with a Record type lands in the index-signature slot of
the member walk, and the resulting compiled guard checks every own key of
the value (one hook call on a mistyped entry) where the same shape
without the declaration checks nothing.  Second, under an index signature
the guard checks the double-underscore keys of the value (one hook call),
while the matcher still accepts. -/
theorem c9_counterexample :
    ttsMembers [.propSig "__indexSignature" false
        (.typeRef "Record" [.stringKw, .numberKw])] [] =
      ([], some (.nodeSlot (.recordT (.prim "string") (.prim "number")))) ∧
    (guardErrs "x" "p" (.obj [("a", .bool true)])
      (.shape [] (some (.nodeSlot
        (.recordT (.prim "string") (.prim "number")))))).length = 1 ∧
    guardErrs "x" "p" (.obj [("a", .bool true)]) (.shape [] none) = [] ∧
    (guardErrs "x" "p" (.obj [("__secret", .str "x")])
      (.shape [("__secret", .prim "number")]
        (some (.mk (.prim "string") (.prim "number"))))).length = 1 ∧
    matchesType (.obj [("__secret", .str "x")])
      (.shape [("__secret", .prim "number")]
        (some (.mk (.prim "string") (.prim "number")))) = true := by
  exact ⟨rfl, by decide, rfl, by decide, by decide⟩

/-- For the atomic TypeNodes the compiled guard is empty exactly when the
matcher accepts. -/
theorem atomic_guard_isEmpty (U : JType) (hU : atomicCheckType U = true) :
    ∀ (vn p : String) (w : JVal), (guardErrs vn p w U).isEmpty = matchesType w U := by
  intro vn p w
  cases U with
  | prim s =>
      simp only [atomicCheckType, Bool.or_eq_true, beq_iff_eq, or_assoc] at hU
      rcases hU with rfl | rfl | rfl | rfl | rfl | rfl | rfl | rfl | rfl | rfl |
        rfl | rfl | rfl | rfl <;>
        cases w <;> simp [guardErrs, matchesType, jtypeof, isUndef, isNull, isArr]
  | lit l =>
      cases w <;> cases l <;>
        simp [guardErrs, matchesType, jvalEqLit] <;>
        (first
          | rfl
          | (rename_i a b
             cases h : (a == b) <;> simp_all [beq_iff_eq]))
  | union ts =>
      simp only [guardErrs, matchesType]
      cases h : mtAny w ts <;> simp [h]
  | enumRefT n vals =>
      simp only [guardErrs, matchesType]
      cases h : (vals.any fun q => jvalEqLit w q.snd) <;> simp [h]
  | inter ts => simp [atomicCheckType] at hU
  | opt t => simp [atomicCheckType] at hU
  | arrayT t => simp [atomicCheckType] at hU
  | roArrayT t => simp [atomicCheckType] at hU
  | tupleT els => simp [atomicCheckType] at hU
  | shape ps ii => simp [atomicCheckType] at hU
  | recordT kt vt => simp [atomicCheckType] at hU
  | mapT kt vt => simp [atomicCheckType] at hU
  | setT t => simp [atomicCheckType] at hU
  | other k => simp [atomicCheckType] at hU

/-- For the atomic TypeNodes a mismatch produces exactly one hook call,
attributed to the diagnostic path of that check site. -/
theorem atomic_guard_mismatch (U : JType) (hU : atomicCheckType U = true) :
    ∀ (vn p : String) (w : JVal), matchesType w U = false →
    (guardErrs vn p w U).map ErrCall.path = [errPathOf vn p] := by
  intro vn p w hm
  cases U with
  | prim s =>
      simp only [atomicCheckType, Bool.or_eq_true, beq_iff_eq, or_assoc] at hU
      rcases hU with rfl | rfl | rfl | rfl | rfl | rfl | rfl | rfl | rfl | rfl |
        rfl | rfl | rfl | rfl <;>
        cases w <;>
        simp_all [guardErrs, matchesType, jtypeof, isUndef, isNull, isArr]
  | lit l =>
      simp only [matchesType] at hm
      simp [guardErrs, hm]
  | union ts =>
      simp only [matchesType] at hm
      simp [guardErrs, hm]
  | enumRefT n vals =>
      simp only [matchesType] at hm
      simp only [guardErrs]
      rw [hm]
      simp
  | inter ts => simp [atomicCheckType] at hU
  | opt t => simp [atomicCheckType] at hU
  | arrayT t => simp [atomicCheckType] at hU
  | roArrayT t => simp [atomicCheckType] at hU
  | tupleT els => simp [atomicCheckType] at hU
  | shape ps ii => simp [atomicCheckType] at hU
  | recordT kt vt => simp [atomicCheckType] at hU
  | mapT kt vt => simp [atomicCheckType] at hU
  | setT t => simp [atomicCheckType] at hU
  | other k => simp [atomicCheckType] at hU

/-- The path extended by a dot and a property name is never the empty
string. -/
theorem extendedPathNeEmpty (p k : String) : ((p ++ "." ++ k) == "") = false := by
  rw [Bool.eq_false_iff]
  intro h
  have h2 : p ++ "." ++ k = "" := beq_iff_eq.mp h
  have h3 := congrArg String.length h2
  rw [String.length_append, String.length_append] at h3
  have hdot : (".").length = 1 := rfl
  have hemp : ("").length = 0 := rfl
  omega

/-- C7 (amended): for a shape declaring one optional property k of type
U - k an ordinary name: not double-underscore-prefixed and not the
distinguished name kind, whose presence as a declared property would
occupy the type.kind slot and derail compileCheck, the matcher (the
!type.kind test) and the analyzer (the line-217 skip) out of their shape
branches entirely - a value omitting k yields no guard failure, no
matcher rejection and no analyzer diagnostic; supplying k with a
non-undefined value violating U yields at least one failure attributed
to k - exactly one when U compiles to a single check site (a recognized
primitive, a literal, a union or an enum reference), and likewise
exactly one analyzer diagnostic for a violating literal; the
counterexample shows an intersection type producing two hook calls for
the same property. -/
theorem c7_optional_property :
    ∀ (k : String) (U : JType) (fs : List (String × JVal)) (vn p nm : String)
      (props : List (String × VNode)),
    strStartsWith k "__" = false →
    (k == "kind") = false →
    (p == "") = false →
    ((fs.find? (fun q => q.fst == k)) = none →
       guardErrs vn p (.obj fs) (.shape [(k, .opt U)] none) = [] ∧
       matchesType (.obj fs) (.shape [(k, .opt U)] none) = true ∧
       (lookupVN props k = none →
          checkObject nm props (.shape [(k, .opt U)] none) = [])) ∧
    (∀ w : JVal,
       atomicCheckType U = true →
       jget (.obj fs) k = w →
       isUndef w = false →
       matchesType w U = false →
       (guardErrs vn p (.obj fs) (.shape [(k, .opt U)] none)).map ErrCall.path =
         [p ++ "." ++ k]) ∧
    (∀ wl : JVal,
       lookupVN props k = some (.literalN wl) →
       anMatchesType wl U = false →
       strStartsWith (nm ++ "." ++ k) "__" = false →
       (checkObject nm props (.shape [(k, .opt U)] none)).length = 1) := by
  intro k U fs vn p nm props hk hkind hp
  refine ⟨?_, ?_, ?_⟩
  · intro hfind
    refine ⟨?_, ?_, ?_⟩
    · simp [guardErrs, gProps, gIdx, jget, hfind, hk, jtypeof, isNull, isArr,
        isUndef]
    · simp [matchesType, mtProps, hk, jget, hfind, jtypeof, isNull, isUndef]
    · intro hlp
      simp only [checkObject, coProps, hk, Bool.false_eq_true, if_false,
        isOptType, if_true, List.append_nil]
      split
      · rfl
      · rename_i vn2 heq
        rw [hlp] at heq
        cases heq
  · intro w hU hget hundef hmm
    have hspread : guardErrs vn p (.obj fs) (.shape [(k, .opt U)] none) =
        guardErrs (propAccess vn k) (extendPath p k) (jget (.obj fs) k) (.opt U) := by
      simp [guardErrs, gProps, gIdx, hk, jtypeof, isNull, isArr]
    rw [hspread, hget]
    have hopt : guardErrs (propAccess vn k) (extendPath p k) w (.opt U) =
        guardErrs (propAccess vn k) (extendPath p k) w U := by
      simp [guardErrs, hundef]
    rw [hopt, atomic_guard_mismatch U hU _ _ w hmm]
    rw [extendPath, if_neg (by simp_all), errPathOf,
      if_neg (by rw [extendedPathNeEmpty]; simp)]
  · intro wl hlv han hnm2
    simp only [checkObject, coProps, hk, Bool.false_eq_true, if_false,
      unwrapOpt, List.append_nil]
    split
    · rename_i heq
      rw [hlv] at heq
      cases heq
    · rename_i vn2 heq
      rw [hlv] at heq
      injection heq with h2
      subst h2
      simp [checkType, hnm2, han]

/-- C7 witness: an empty object omitting the optional number property
passes everywhere; supplying a boolean yields exactly the one failure
attributed to the property. -/
theorem c7_witness :
    strStartsWith "k" "__" = false ∧ ("k" == "kind") = false ∧
    ("p" == "") = false ∧
    List.find? (fun q => q.fst == "k") ([] : List (String × JVal)) = none ∧
    (guardErrs "x" "p" (.obj []) (.shape [("k", .opt (.prim "number"))] none) = [] ∧
     matchesType (.obj []) (.shape [("k", .opt (.prim "number"))] none) = true ∧
     checkObject "u" [] (.shape [("k", .opt (.prim "number"))] none) = []) ∧
    (guardErrs "x" "p" (.obj [("k", .bool true)])
      (.shape [("k", .opt (.prim "number"))] none)).map ErrCall.path = ["p.k"] ∧
    (checkObject "u" [("k", .literalN (.bool true))]
      (.shape [("k", .opt (.prim "number"))] none)).length = 1 :=
  ⟨by decide, by decide, by decide, rfl,
   by
     have h := (c7_optional_property "k" (.prim "number") [] "x" "p" "u" []
       (by decide) (by decide) (by decide)).1 rfl
     exact ⟨h.1, h.2.1, h.2.2 rfl⟩,
   (c7_optional_property "k" (.prim "number") [("k", .bool true)] "x" "p" "u" []
     (by decide) (by decide) (by decide)).2.1 (.bool true) (by decide) rfl
     (by decide) (by decide),
   (c7_optional_property "k" (.prim "number") [] "x" "p" "u"
     [("k", .literalN (.bool true))] (by decide) (by decide) (by decide)).2.2
     (.bool true) rfl (by decide) (by decide)⟩

/-- C7 counterexample: with the optional property typed as the
intersection number and string, supplying a boolean triggers two hook
calls, both attributed to the property - exactly one is false. -/
theorem c7_counterexample :
    (guardErrs "x" "p" (.obj [("k", .bool true)])
      (.shape [("k", .opt (.inter [.prim "number", .prim "string"]))] none)).length =
      2 ∧
    (guardErrs "x" "p" (.obj [("k", .bool true)])
      (.shape [("k", .opt (.inter [.prim "number", .prim "string"]))] none)).map
      ErrCall.path = ["p.k", "p.k"] := by
  exact ⟨by decide, by decide⟩

mutual
/-- On the agreeable fragment the compiled guard performs no hook call
exactly when the runtime matcher accepts the value. -/
theorem guardMatcherAgree (t : JType) :
    ∀ (vn p : String) (v : JVal), agreeable t = true →
      (guardErrs vn p v t).isEmpty = matchesType v t :=
  match t with
  | .prim s => fun vn p v h =>
      atomic_guard_isEmpty (.prim s)
        (by simp only [agreeable] at h; simp only [atomicCheckType]; exact h)
        vn p v
  | .lit l => fun vn p v _ => atomic_guard_isEmpty (.lit l) rfl vn p v
  | .union ts => fun vn p v _ => atomic_guard_isEmpty (.union ts) rfl vn p v
  | .enumRefT n vals => fun vn p v _ =>
      atomic_guard_isEmpty (.enumRefT n vals) rfl vn p v
  | .opt t => fun vn p v h => by
      have ih := guardMatcherAgree t vn p v (by simpa [agreeable] using h)
      cases hu : isUndef v <;> simp [guardErrs, matchesType, hu, ih]
  | .inter ts => fun vn p v h => by
      have ih := guardMatcherAgreeList ts vn p v (by simpa [agreeable] using h)
      simpa [guardErrs, matchesType] using ih
  | .arrayT t => fun vn p v h => by
      have hag : agreeable t = true := by simpa [agreeable] using h
      cases v
      case arr xs =>
        simp only [guardErrs, matchesType, listIsEmptyFlatMap]
        exact congrArg xs.all
          (funext fun x => guardMatcherAgree t (subscriptName vn) p x hag)
      all_goals simp [guardErrs, matchesType]
  | .roArrayT t => fun vn p v h => by
      have hag : agreeable t = true := by simpa [agreeable] using h
      cases v
      case arr xs =>
        simp only [guardErrs, matchesType, listIsEmptyFlatMap]
        exact congrArg xs.all
          (funext fun x => guardMatcherAgree t (subscriptName vn) p x hag)
      all_goals simp [guardErrs, matchesType]
  | .setT t => fun vn p v h => by
      have hag : agreeable t = true := by simpa [agreeable] using h
      cases v
      case vset xs =>
        simp only [guardErrs, matchesType, listIsEmptyFlatMap]
        exact congrArg xs.all
          (funext fun x => guardMatcherAgree t (subscriptName vn) p x hag)
      all_goals simp [guardErrs, matchesType]
  | .mapT kt vt => fun vn p v h => by
      have hk : agreeable kt = true := by
        simp only [agreeable, Bool.and_eq_true] at h; exact h.1
      have hv : agreeable vt = true := by
        simp only [agreeable, Bool.and_eq_true] at h; exact h.2
      cases v
      case vmap es =>
        simp only [guardErrs, matchesType, listIsEmptyFlatMap]
        refine congrArg es.all (funext fun q => ?_)
        rw [listIsEmptyAppend, guardMatcherAgree kt (subscriptName vn) p q.fst hk,
          guardMatcherAgree vt (subscriptName vn) p q.snd hv]
      all_goals simp [guardErrs, matchesType]
  | .recordT kt vt => fun vn p v h => by
      have hv : agreeable vt = true := by simpa [agreeable] using h
      cases hc : (jtypeof v == "object" && !isNull v && !isArr v)
      · simp [guardErrs, matchesType, hc]
      · simp only [guardErrs, matchesType, hc, if_true, listIsEmptyFlatMap]
        exact congrArg (jOwnEntries v).all
          (funext fun q => guardMatcherAgree vt (subscriptName vn) p q.snd hv)
  | .tupleT els => fun vn p v h => by
      have he : agEls els = true := by simpa [agreeable] using h
      cases v
      case arr xs => exact guardMatcherAgreeEls els vn p xs 0 he
      all_goals simp [guardErrs, matchesType]
  | .shape props isig => fun vn p v h => by simp [agreeable] at h
  | .other k => fun vn p v _ => by simp [guardErrs, matchesType]
termination_by structural t

/-- The intersection members agree pointwise, so the concatenated
fragments are silent exactly when every member matches. -/
theorem guardMatcherAgreeList (ts : List JType) :
    ∀ (vn p : String) (v : JVal), agAll ts = true →
      (gInter vn p v ts).isEmpty = mtAll v ts :=
  match ts with
  | [] => fun vn p v _ => by simp [gInter, mtAll]
  | t :: rest => fun vn p v h => by
      have h1 : agreeable t = true := by
        simp only [agAll, Bool.and_eq_true] at h; exact h.1
      have h2 : agAll rest = true := by
        simp only [agAll, Bool.and_eq_true] at h; exact h.2
      simp only [gInter, mtAll, listIsEmptyAppend,
        guardMatcherAgree t vn p v h1, guardMatcherAgreeList rest vn p v h2]
termination_by structural ts

/-- Tuple elements agree position by position when no element follows a
rest element. -/
theorem guardMatcherAgreeEls (els : List TupleEl) :
    ∀ (vn p : String) (xs : List JVal) (i : Nat), agEls els = true →
      (gTuple vn p xs i els).isEmpty = mtTuple xs i els :=
  match els with
  | [] => fun vn p xs i _ => by simp [gTuple, mtTuple]
  | .restEl t :: rest => fun vn p xs i h => by
      have h1 : agreeable t = true := by
        simp only [agEls, Bool.and_eq_true] at h; exact h.1
      have h2 : rest = [] := by
        simp only [agEls, Bool.and_eq_true, List.isEmpty_iff] at h; exact h.2
      subst h2
      simp only [gTuple, mtTuple, listIsEmptyFlatMap, Bool.and_true]
      exact congrArg (xs.drop i).all
        (funext fun x => guardMatcherAgree t (subscriptName vn) p x h1)
  | .plainEl t :: rest => fun vn p xs i h => by
      have h1 : agreeable t = true := by
        simp only [agEls, Bool.and_eq_true] at h; exact h.1
      have h2 : agEls rest = true := by
        simp only [agEls, Bool.and_eq_true] at h; exact h.2
      simp only [gTuple, mtTuple, listIsEmptyAppend,
        guardMatcherAgree t (subscriptName vn) p (xs.getD i .undefV) h1,
        guardMatcherAgreeEls rest vn p xs (i + 1) h2]
  | .optEl t :: rest => fun vn p xs i h => by
      have h1 : agreeable t = true := by
        simp only [agEls, Bool.and_eq_true] at h; exact h.1
      have h2 : agEls rest = true := by
        simp only [agEls, Bool.and_eq_true] at h; exact h.2
      have ih := guardMatcherAgreeEls rest vn p xs (i + 1) h2
      by_cases hlen : i < xs.length
      · have hd : decide (xs.length ≤ i) = false := by
          simp only [decide_eq_false_iff_not]; omega
        simp only [gTuple, mtTuple, listIsEmptyAppend, if_pos hlen, hd,
          Bool.false_or, ih,
          guardMatcherAgree t (subscriptName vn) p (xs.getD i .undefV) h1]
      · have hd : decide (xs.length ≤ i) = true := by
          simp only [decide_eq_true_eq]; omega
        simp only [gTuple, mtTuple, listIsEmptyAppend, if_neg hlen, hd,
          Bool.true_or, ih, List.isEmpty_nil, Bool.true_and]
  | .labeledEl nm o t :: rest => fun vn p xs i h => by
      have h1 : agreeable t = true := by
        simp only [agEls, Bool.and_eq_true] at h; exact h.1
      have h2 : agEls rest = true := by
        simp only [agEls, Bool.and_eq_true] at h; exact h.2
      have ih := guardMatcherAgreeEls rest vn p xs (i + 1) h2
      cases o
      · simp only [gTuple, mtTuple, listIsEmptyAppend, if_false,
          Bool.false_eq_true, ih,
          guardMatcherAgree t (subscriptName vn) p (xs.getD i .undefV) h1]
      · by_cases hlen : i < xs.length
        · have hd : decide (xs.length ≤ i) = false := by
            simp only [decide_eq_false_iff_not]; omega
          simp only [gTuple, mtTuple, listIsEmptyAppend, if_true, if_pos hlen,
            hd, Bool.false_or, ih,
            guardMatcherAgree t (subscriptName vn) p (xs.getD i .undefV) h1]
        · have hd : decide (xs.length ≤ i) = true := by
            simp only [decide_eq_true_eq]; omega
          simp only [gTuple, mtTuple, listIsEmptyAppend, if_true, if_neg hlen,
            hd, Bool.true_or, ih, List.isEmpty_nil, Bool.true_and]
termination_by structural els
end

/-- C1 (amended): on the agreeable fragment of TypeNodes - recognized
primitive strings, literal types, optionals, unions, intersections of
agreeing members, arrays, tuples with nothing after a rest element,
records, maps, sets, enum references and the opaque unmodeled kinds - the
guard code produced by compileCheck invokes the error hook on a value
exactly when the runtime matcher returns false for it.  Outside the
fragment the two disagree: the counterexample shows a bare unresolved
reference name that the guard erases while the matcher rejects every
value; object shapes likewise diverge on arrays and index signatures. -/
theorem c1_guard_matcher_equivalence (t : JType) (vn p : String) (v : JVal)
    (h : agreeable t = true) :
    guardErrs vn p v t ≠ [] ↔ matchesType v t = false := by
  rw [listNeNilIffIsEmptyFalse, guardMatcherAgree t vn p v h]

/-- C1 witness: the string type is in the agreeable fragment and on a
number value the guard fires exactly as the matcher rejects. -/
theorem c1_witness :
    agreeable (.prim "string") = true ∧
    ((guardErrs "x" "p" (.num 3) (.prim "string") ≠ [] ↔
       matchesType (.num 3) (.prim "string") = false) ∧
     (guardErrs "x" "p" (.num 3) (.prim "string")).isEmpty = false ∧
     matchesType (.num 3) (.prim "string") = false) :=
  ⟨by decide,
   c1_guard_matcher_equivalence (.prim "string") "x" "p" (.num 3) (by decide),
   by decide, by decide⟩

/-- C1 counterexample: the parser turns an unresolved reference User into
the bare string User; compileCheck erases it (empty fragment, no hook
call on any value) while the matcher falls through to a typeof comparison
against the name and rejects the number 3 - guard silent, matcher
rejecting. -/
theorem c1_counterexample :
    tsTypeToString (.typeRef "User" []) [] = .prim "User" ∧
    checkEmits (.prim "User") = false ∧
    guardErrs "x" "p" (.num 3) (.prim "User") = [] ∧
    matchesType (.num 3) (.prim "User") = false :=
  ⟨rfl, by decide, rfl, by decide⟩

/-- Appending a non-definition entry does not change interface lookup. -/
theorem findIface_stable (e : RegEntry) (he : isDefEntry e = false)
    (reg : List RegEntry) (n : String) :
    findIface (reg ++ [e]) n = findIface reg n := by
  induction reg with
  | nil => cases e <;> simp_all [isDefEntry, findIface]
  | cons r rest ih => cases r <;> simp [findIface, ih]

/-- Appending a non-definition entry does not change alias lookup. -/
theorem findAlias_stable (e : RegEntry) (he : isDefEntry e = false)
    (reg : List RegEntry) (n : String) :
    findAlias (reg ++ [e]) n = findAlias reg n := by
  induction reg with
  | nil => cases e <;> simp_all [isDefEntry, findAlias]
  | cons r rest ih => cases r <;> simp [findAlias, ih]

/-- Appending a non-definition entry does not change enum lookup. -/
theorem findEnum_stable (e : RegEntry) (he : isDefEntry e = false)
    (reg : List RegEntry) (n : String) :
    findEnum (reg ++ [e]) n = findEnum reg n := by
  induction reg with
  | nil => cases e <;> simp_all [isDefEntry, findEnum]
  | cons r rest ih => cases r <;> simp [findEnum, ih]

/-- Appending a non-definition entry does not change bare-reference
resolution. -/
theorem resolveRef_stable (n : String) (reg : List RegEntry) (e : RegEntry)
    (he : isDefEntry e = false) :
    resolveRef n (reg ++ [e]) = resolveRef n reg := by
  simp only [resolveRef, findIface_stable e he, findAlias_stable e he,
    findEnum_stable e he]

/-- Reduction of the reference dispatch for a parameterless reference. -/
theorem ttsRef_nil_red (n : String) (reg : List RegEntry) :
    tsTypeToString (.typeRef n []) reg = resolveRef n reg := rfl

/-- Reduction of the reference dispatch for one type argument. -/
theorem ttsRef_one_red (n : String) (a : TsSyn) (reg : List RegEntry) :
    tsTypeToString (.typeRef n [a]) reg =
      (if n == "Array" then .arrayT (tsTypeToString a reg)
       else if n == "ReadonlyArray" then .roArrayT (tsTypeToString a reg)
       else if n == "Map" then .other "generic"
       else if n == "Set" then .setT (tsTypeToString a reg)
       else if n == "Promise" then .other "promise"
       else if n == "Partial" then .other "partial"
       else if n == "Required" then .other "required"
       else if n == "Readonly" then .other "readonly"
       else if n == "Pick" then .other "generic"
       else if n == "Omit" then .other "generic"
       else if n == "Record" then .other "generic"
       else if n == "Exclude" then .other "generic"
       else if n == "Extract" then .other "generic"
       else if n == "NonNullable" then .other "nonNullable"
       else if n == "ReturnType" then .other "returnType"
       else if n == "Parameters" then .other "parameters"
       else if n == "Awaited" then .other "awaited"
       else .other "generic") := rfl

/-- Reduction of the reference dispatch for exactly two type arguments. -/
theorem ttsRef_two_red (n : String) (a b : TsSyn) (reg : List RegEntry) :
    tsTypeToString (.typeRef n [a, b]) reg =
      (if n == "Array" then .arrayT (tsTypeToString a reg)
       else if n == "ReadonlyArray" then .roArrayT (tsTypeToString a reg)
       else if n == "Map" then .mapT (tsTypeToString a reg) (tsTypeToString b reg)
       else if n == "Set" then .setT (tsTypeToString a reg)
       else if n == "Promise" then .other "promise"
       else if n == "Partial" then .other "partial"
       else if n == "Required" then .other "required"
       else if n == "Readonly" then .other "readonly"
       else if n == "Pick" then .other "pick"
       else if n == "Omit" then .other "omit"
       else if n == "Record" then .recordT (tsTypeToString a reg) (tsTypeToString b reg)
       else if n == "Exclude" then .other "exclude"
       else if n == "Extract" then .other "extract"
       else if n == "NonNullable" then .other "nonNullable"
       else if n == "ReturnType" then .other "returnType"
       else if n == "Parameters" then .other "parameters"
       else if n == "Awaited" then .other "awaited"
       else .other "generic") := rfl

/-- Reduction of the reference dispatch for three or more type
arguments. -/
theorem ttsRef_many_red (n : String) (a b c : TsSyn) (rest : List TsSyn)
    (reg : List RegEntry) :
    tsTypeToString (.typeRef n (a :: b :: c :: rest)) reg =
      (if n == "Array" then .arrayT (tsTypeToString a reg)
       else if n == "ReadonlyArray" then .roArrayT (tsTypeToString a reg)
       else if n == "Map" then .other "generic"
       else if n == "Set" then .setT (tsTypeToString a reg)
       else if n == "Promise" then .other "promise"
       else if n == "Partial" then .other "partial"
       else if n == "Required" then .other "required"
       else if n == "Readonly" then .other "readonly"
       else if n == "Pick" then .other "generic"
       else if n == "Omit" then .other "generic"
       else if n == "Record" then .other "generic"
       else if n == "Exclude" then .other "generic"
       else if n == "Extract" then .other "generic"
       else if n == "NonNullable" then .other "nonNullable"
       else if n == "ReturnType" then .other "returnType"
       else if n == "Parameters" then .other "parameters"
       else if n == "Awaited" then .other "awaited"
       else .other "generic") := rfl

mutual
/-- Appending a variable, function or class entry to the registry leaves
every type translation unchanged: references resolve only against
interface, alias and enum entries. -/
theorem tts_stable (syn : TsSyn) :
    ∀ (reg : List RegEntry) (e : RegEntry), isDefEntry e = false →
      tsTypeToString syn (reg ++ [e]) = tsTypeToString syn reg :=
  match syn with
  | .nullKw => fun _ _ _ => rfl
  | .undefinedKw => fun _ _ _ => rfl
  | .bigintKw => fun _ _ _ => rfl
  | .symbolKw => fun _ _ _ => rfl
  | .stringKw => fun _ _ _ => rfl
  | .numberKw => fun _ _ _ => rfl
  | .booleanKw => fun _ _ _ => rfl
  | .voidKw => fun _ _ _ => rfl
  | .neverKw => fun _ _ _ => rfl
  | .anyKw => fun _ _ _ => rfl
  | .unknownKw => fun _ _ _ => rfl
  | .objectKw => fun _ _ _ => rfl
  | .literalType _ => fun _ _ _ => rfl
  | .templateLitType => fun _ _ _ => rfl
  | .typeRef n args => fun reg e he => by
      cases args with
      | nil => simp only [ttsRef_nil_red, resolveRef_stable n reg e he]
      | cons a rest =>
          cases rest with
          | nil => simp only [ttsRef_one_red, tts_stable a reg e he]
          | cons b rest2 =>
              cases rest2 with
              | nil =>
                  simp only [ttsRef_two_red, tts_stable a reg e he,
                    tts_stable b reg e he]
              | cons c rest3 =>
                  simp only [ttsRef_many_red, tts_stable a reg e he]
  | .unionType ts => fun reg e he => by
      have hred : ∀ r, tsTypeToString (.unionType ts) r = .union (ttsList ts r) :=
        fun _ => rfl
      simp only [hred, ttsList_stable ts reg e he]
  | .intersectionType ts => fun reg e he => by
      have hred : ∀ r, tsTypeToString (.intersectionType ts) r =
          .inter (ttsList ts r) := fun _ => rfl
      simp only [hred, ttsList_stable ts reg e he]
  | .typeLiteral ms => fun reg e he => by
      have hred : ∀ r, tsTypeToString (.typeLiteral ms) r =
          (match ttsMembers ms r with
           | (ps, ii) => JType.shape ps ii) := fun _ => rfl
      simp only [hred, ttsMembers_stable ms reg e he]
  | .tupleType els => fun reg e he => by
      have hred : ∀ r, tsTypeToString (.tupleType els) r =
          .tupleT (ttsTupleEls els r) := fun _ => rfl
      simp only [hred, ttsTupleEls_stable els reg e he]
  | .arrayType el => fun reg e he => by
      have hred : ∀ r, tsTypeToString (.arrayType el) r =
          .arrayT (tsTypeToString el r) := fun _ => rfl
      simp only [hred, tts_stable el reg e he]
  | .funcType => fun _ _ _ => rfl
  | .unrecognized _ => fun _ _ _ => rfl
termination_by structural syn

theorem ttsList_stable (ts : List TsSyn) :
    ∀ (reg : List RegEntry) (e : RegEntry), isDefEntry e = false →
      ttsList ts (reg ++ [e]) = ttsList ts reg :=
  match ts with
  | [] => fun _ _ _ => rfl
  | t :: rest => fun reg e he => by
      have hred : ∀ r, ttsList (t :: rest) r =
          tsTypeToString t r :: ttsList rest r := fun _ => rfl
      simp only [hred, tts_stable t reg e he, ttsList_stable rest reg e he]
termination_by structural ts

theorem ttsMembers_stable (ms : List TsMember) :
    ∀ (reg : List RegEntry) (e : RegEntry), isDefEntry e = false →
      ttsMembers ms (reg ++ [e]) = ttsMembers ms reg :=
  match ms with
  | [] => fun _ _ _ => rfl
  | .propSig name o ann :: rest => fun reg e he => by
      have hred : ∀ r, ttsMembers (.propSig name o ann :: rest) r =
          (match ttsMembers rest r with
           | (ps, ii) =>
             if name == "__indexSignature" then
               (ps,
                match ii with
                | some x => some x
                | none =>
                    some (.nodeSlot
                      (if o then JType.opt (tsTypeToString ann r)
                       else tsTypeToString ann r)))
             else
               (insertShapeKey name
                 (if o then JType.opt (tsTypeToString ann r)
                  else tsTypeToString ann r) ps, ii)) := fun _ => rfl
      simp only [hred, ttsMembers_stable rest reg e he, tts_stable ann reg e he]
  | .indexSig ka va :: rest => fun reg e he => by
      have hred : ∀ r, ttsMembers (.indexSig ka va :: rest) r =
          (match ttsMembers rest r with
           | (ps, ii) =>
             (ps,
              match ii with
              | some x => some x
              | none =>
                  some (.mk (tsTypeToString ka r) (tsTypeToString va r)))) :=
        fun _ => rfl
      simp only [hred, ttsMembers_stable rest reg e he, tts_stable ka reg e he,
        tts_stable va reg e he]
  | .methodSig name :: rest => fun reg e he => by
      have hred : ∀ r, ttsMembers (.methodSig name :: rest) r =
          (match ttsMembers rest r with
           | (ps, ii) =>
             if name == "__indexSignature" then
               (ps,
                match ii with
                | some x => some x
                | none => some (.nodeSlot (JType.other "method")))
             else (insertShapeKey name (JType.other "method") ps, ii)) :=
        fun _ => rfl
      simp only [hred, ttsMembers_stable rest reg e he]
  | .callSig :: rest => fun reg e he => by
      have hred : ∀ r, ttsMembers (.callSig :: rest) r =
          (match ttsMembers rest r with
           | (ps, ii) => (ps, ii)) := fun _ => rfl
      simp only [hred, ttsMembers_stable rest reg e he]
  | .constructSig :: rest => fun reg e he => by
      have hred : ∀ r, ttsMembers (.constructSig :: rest) r =
          (match ttsMembers rest r with
           | (ps, ii) => (ps, ii)) := fun _ => rfl
      simp only [hred, ttsMembers_stable rest reg e he]
termination_by structural ms

theorem ttsTupleEls_stable (els : List TsTupleElS) :
    ∀ (reg : List RegEntry) (e : RegEntry), isDefEntry e = false →
      ttsTupleEls els (reg ++ [e]) = ttsTupleEls els reg :=
  match els with
  | [] => fun _ _ _ => rfl
  | .namedElS lb o ann :: rest => fun reg e he => by
      have hred : ∀ r, ttsTupleEls (.namedElS lb o ann :: rest) r =
          .labeledEl lb o (tsTypeToString ann r) :: ttsTupleEls rest r :=
        fun _ => rfl
      simp only [hred, tts_stable ann reg e he, ttsTupleEls_stable rest reg e he]
  | .restElS ann :: rest => fun reg e he => by
      have hred : ∀ r, ttsTupleEls (.restElS ann :: rest) r =
          .restEl (tsTypeToString ann r) :: ttsTupleEls rest r := fun _ => rfl
      simp only [hred, tts_stable ann reg e he, ttsTupleEls_stable rest reg e he]
  | .optElS ann :: rest => fun reg e he => by
      have hred : ∀ r, ttsTupleEls (.optElS ann :: rest) r =
          .optEl (tsTypeToString ann r) :: ttsTupleEls rest r := fun _ => rfl
      simp only [hred, tts_stable ann reg e he, ttsTupleEls_stable rest reg e he]
  | .plainElS ann :: rest => fun reg e he => by
      have hred : ∀ r, ttsTupleEls (.plainElS ann :: rest) r =
          .plainEl (tsTypeToString ann r) :: ttsTupleEls rest r := fun _ => rfl
      simp only [hred, tts_stable ann reg e he, ttsTupleEls_stable rest reg e he]
termination_by structural els
end

/-- Alias resolution of an already translated node is likewise stable. -/
theorem resolveAliasIfString_stable (t : JType) (reg : List RegEntry)
    (e : RegEntry) (he : isDefEntry e = false) :
    resolveAliasIfString t (reg ++ [e]) = resolveAliasIfString t reg := by
  cases t <;> simp [resolveAliasIfString, findAlias_stable e he]

/-- The number of translated parameters does not depend on the registry:
only the presence of an annotation decides whether a parameter is kept. -/
theorem translateParams_length (ps : List FSig) (reg reg2 : List RegEntry) :
    (translateParams reg ps).length = (translateParams reg2 ps).length := by
  induction ps with
  | nil => rfl
  | cons q rest ih =>
      cases q with
      | restP n ann => simp [translateParams, ih]
      | thisP ann => simp [translateParams, ih]
      | plainP n ann o => cases ann <;> simp [translateParams, ih]

/-- The pass-2 push decisions consult the registry only through the
reference lookups, so appending a non-definition entry changes no
decision and no key. -/
theorem p2Keys_stable (e : RegEntry) (he : isDefEntry e = false)
    (reg : List RegEntry) (ds : List Decl) :
    p2Keys (reg ++ [e]) ds = p2Keys reg ds := by
  simp only [p2Keys]
  refine congrArg (fun f => List.filterMap f ds) (funext fun d => ?_)
  cases d with
  | varDeclD n ann c => cases ann <;> rfl
  | funcDeclD n ps ra htp =>
      have h1 : (translateParams (reg ++ [e]) ps).length =
          (translateParams reg ps).length := translateParams_length ps _ _
      have h2 : (match ra with
                 | none => JType.prim "any"
                 | some a =>
                     resolveAliasIfString (tsTypeToString a (reg ++ [e]))
                       (reg ++ [e])) =
          (match ra with
           | none => JType.prim "any"
           | some a => resolveAliasIfString (tsTypeToString a reg) reg) := by
        cases ra with
        | none => rfl
        | some a =>
            show resolveAliasIfString (tsTypeToString a (reg ++ [e])) (reg ++ [e]) =
              resolveAliasIfString (tsTypeToString a reg) reg
            rw [tts_stable a reg e he, resolveAliasIfString_stable _ reg e he]
      simp only [h1, h2]
  | classDeclD n => rfl
  | enumDecl n ms c => rfl
  | interfaceDecl n ms => rfl
  | typeAliasDecl n a => rfl
  | otherDecl => rfl

/-- Pass 1 appends exactly one entry per definition declaration, and its
keys do not depend on the starting registry. -/
theorem pass1_map_regKey (ds : List Decl) :
    ∀ reg : List RegEntry,
      (pass1 reg ds).map regKey = reg.map regKey ++ p1Keys ds := by
  induction ds with
  | nil => intro reg; simp [pass1, p1Keys]
  | cons d rest ih =>
      intro reg
      cases d with
      | enumDecl n ms c =>
          have hp1 : pass1 reg (Decl.enumDecl n ms c :: rest) =
              pass1 (reg ++ [.enumE n (materializeEnum ms) c]) rest := rfl
          have hcons : p1Keys (Decl.enumDecl n ms c :: rest) =
              ("enum", n) :: p1Keys rest := rfl
          rw [hp1, ih, hcons]
          simp [regKey]
      | interfaceDecl n ms =>
          rcases hq : ttsMembers ms reg with ⟨ps, ii⟩
          have hp1 : pass1 reg (Decl.interfaceDecl n ms :: rest) =
              pass1 (reg ++ [.ifaceE n (ttsMembers ms reg).1 (ttsMembers ms reg).2])
                rest := rfl
          have hcons : p1Keys (Decl.interfaceDecl n ms :: rest) =
              ("interface", n) :: p1Keys rest := rfl
          rw [hp1, ih, hcons]
          simp [regKey]
      | typeAliasDecl n a =>
          have hp1 : pass1 reg (Decl.typeAliasDecl n a :: rest) =
              pass1 (reg ++ [.aliasE n (tsTypeToString a reg)]) rest := rfl
          have hcons : p1Keys (Decl.typeAliasDecl n a :: rest) =
              ("typeAlias", n) :: p1Keys rest := rfl
          rw [hp1, ih, hcons]
          simp [regKey]
      | varDeclD n ann c =>
          have hp1 : pass1 reg (Decl.varDeclD n ann c :: rest) =
              pass1 reg rest := rfl
          have hcons : p1Keys (Decl.varDeclD n ann c :: rest) = p1Keys rest := rfl
          rw [hp1, ih, hcons]
      | funcDeclD n ps ra htp =>
          have hp1 : pass1 reg (Decl.funcDeclD n ps ra htp :: rest) =
              pass1 reg rest := rfl
          have hcons : p1Keys (Decl.funcDeclD n ps ra htp :: rest) =
              p1Keys rest := rfl
          rw [hp1, ih, hcons]
      | classDeclD n =>
          have hp1 : pass1 reg (Decl.classDeclD n :: rest) = pass1 reg rest := rfl
          have hcons : p1Keys (Decl.classDeclD n :: rest) = p1Keys rest := rfl
          rw [hp1, ih, hcons]
      | otherDecl =>
          have hp1 : pass1 reg (Decl.otherDecl :: rest) = pass1 reg rest := rfl
          have hcons : p1Keys (Decl.otherDecl :: rest) = p1Keys rest := rfl
          rw [hp1, ih, hcons]

/-- Pass 2 appends one entry per registered usage declaration; the push
decisions depend only on the definition entries, which pass 2 never
adds. -/
theorem pass2_map_regKey (ds : List Decl) :
    ∀ reg : List RegEntry,
      (pass2 reg ds).map regKey = reg.map regKey ++ p2Keys reg ds := by
  induction ds with
  | nil => intro reg; simp [pass2, p2Keys]
  | cons d rest ih =>
      intro reg
      cases d with
      | varDeclD n ann c =>
          cases ann with
          | none =>
              have hp2 : pass2 reg (Decl.varDeclD n none c :: rest) =
                  pass2 reg rest := rfl
              have hcons : p2Keys reg (Decl.varDeclD n none c :: rest) =
                  p2Keys reg rest := rfl
              rw [hp2, ih, hcons]
          | some a =>
              have hst := p2Keys_stable
                (.varE n (resolveAliasIfString (tsTypeToString a reg) reg) c)
                rfl reg rest
              have hp2 : pass2 reg (Decl.varDeclD n (some a) c :: rest) =
                  pass2
                    (reg ++
                      [.varE n (resolveAliasIfString (tsTypeToString a reg) reg) c])
                    rest := rfl
              have hcons : p2Keys reg (Decl.varDeclD n (some a) c :: rest) =
                  ("variable", n) :: p2Keys reg rest := rfl
              rw [hp2, ih, hst, hcons]
              simp [regKey]
      | funcDeclD n ps ra htp =>
          obtain ⟨ret, hret⟩ : ∃ retefound : JType,
              (match ra with
               | none => JType.prim "any"
               | some a => resolveAliasIfString (tsTypeToString a reg) reg) =
                retefound := ⟨_, rfl⟩
          cases hC : (decide ((translateParams reg ps).length > 0) ||
              !isAnyPrim ret || htp) with
          | false =>
              have hp2 : pass2 reg (Decl.funcDeclD n ps ra htp :: rest) =
                  pass2 reg rest := by
                simp only [pass2, hret, hC, Bool.false_eq_true, if_false]
              have hcons : p2Keys reg (Decl.funcDeclD n ps ra htp :: rest) =
                  p2Keys reg rest := by
                simp only [p2Keys, List.filterMap_cons, hret, hC,
                  Bool.false_eq_true, if_false]
              rw [hp2, ih, hcons]
          | true =>
              have hst := p2Keys_stable (.funcE n (translateParams reg ps) ret)
                rfl reg rest
              have hp2 : pass2 reg (Decl.funcDeclD n ps ra htp :: rest) =
                  pass2 (reg ++ [.funcE n (translateParams reg ps) ret]) rest := by
                simp only [pass2, hret, hC, eq_self_iff_true, if_true]
              have hcons : p2Keys reg (Decl.funcDeclD n ps ra htp :: rest) =
                  ("function", n) :: p2Keys reg rest := by
                simp only [p2Keys, List.filterMap_cons, hret, hC,
                  eq_self_iff_true, if_true]
              rw [hp2, ih, hst, hcons]
              simp [regKey]
      | classDeclD n =>
          have hst := p2Keys_stable (.classE n) rfl reg rest
          have hp2 : pass2 reg (Decl.classDeclD n :: rest) =
              pass2 (reg ++ [.classE n]) rest := rfl
          have hcons : p2Keys reg (Decl.classDeclD n :: rest) =
              ("class", n) :: p2Keys reg rest := rfl
          rw [hp2, ih, hst, hcons]
          simp [regKey]
      | enumDecl n ms c =>
          have hp2 : pass2 reg (Decl.enumDecl n ms c :: rest) =
              pass2 reg rest := rfl
          have hcons : p2Keys reg (Decl.enumDecl n ms c :: rest) =
              p2Keys reg rest := rfl
          rw [hp2, ih, hcons]
      | interfaceDecl n ms =>
          have hp2 : pass2 reg (Decl.interfaceDecl n ms :: rest) =
              pass2 reg rest := rfl
          have hcons : p2Keys reg (Decl.interfaceDecl n ms :: rest) =
              p2Keys reg rest := rfl
          rw [hp2, ih, hcons]
      | typeAliasDecl n a =>
          have hp2 : pass2 reg (Decl.typeAliasDecl n a :: rest) =
              pass2 reg rest := rfl
          have hcons : p2Keys reg (Decl.typeAliasDecl n a :: rest) =
              p2Keys reg rest := rfl
          rw [hp2, ih, hcons]
      | otherDecl =>
          have hp2 : pass2 reg (Decl.otherDecl :: rest) = pass2 reg rest := rfl
          have hcons : p2Keys reg (Decl.otherDecl :: rest) =
              p2Keys reg rest := rfl
          rw [hp2, ih, hcons]

/-- C8 (amended): the registry built by one parseCode call is append-only
and never deduplicated - its (kind, name) keys are exactly the pass-1
definition keys (one per enum, interface or alias declaration, in order,
independent of the registry) followed by the pass-2 usage keys (annotated
variables, pushed functions, classes, resolved against the pass-1
registry).  Entries are therefore unique by (kind, name) exactly when
that combined key list is duplicate-free; a program declaring the same
kind and name twice yields duplicate entries (see the counterexample). -/
theorem c8_registry_keys (ds : List Decl) :
    (parseCode ds).map regKey = p1Keys ds ++ p2Keys (pass1 [] ds) ds ∧
    ((p1Keys ds ++ p2Keys (pass1 [] ds) ds).Nodup →
      ((parseCode ds).map regKey).Nodup) := by
  have h : (parseCode ds).map regKey = p1Keys ds ++ p2Keys (pass1 [] ds) ds := by
    rw [parseCode, pass2_map_regKey, pass1_map_regKey]
    simp
  exact ⟨h, fun hn => h ▸ hn⟩

/-- C8 witness: a program declaring one interface, one alias, one
annotated variable and one class yields four distinct keys. -/
theorem c8_witness :
    ((p1Keys
        [.interfaceDecl "A" [], .typeAliasDecl "B" .numberKw,
         .varDeclD "x" (some .numberKw) false, .classDeclD "C"] ++
      p2Keys
        (pass1 []
          [.interfaceDecl "A" [], .typeAliasDecl "B" .numberKw,
           .varDeclD "x" (some .numberKw) false, .classDeclD "C"])
        [.interfaceDecl "A" [], .typeAliasDecl "B" .numberKw,
         .varDeclD "x" (some .numberKw) false, .classDeclD "C"]).Nodup) ∧
    ((parseCode
        [.interfaceDecl "A" [], .typeAliasDecl "B" .numberKw,
         .varDeclD "x" (some .numberKw) false, .classDeclD "C"]).map
      regKey).Nodup :=
  ⟨by decide,
   (c8_registry_keys
     [.interfaceDecl "A" [], .typeAliasDecl "B" .numberKw,
      .varDeclD "x" (some .numberKw) false, .classDeclD "C"]).2 (by decide)⟩

/-- C8 counterexample: two interface declarations with the same name both
enter the registry - the keys collide, so the uniqueness invariant the
spec asserts fails. -/
theorem c8_counterexample :
    (parseCode [.interfaceDecl "A" [], .interfaceDecl "A" []]).map regKey =
      [("interface", "A"), ("interface", "A")] ∧
    ¬ ((parseCode [.interfaceDecl "A" [], .interfaceDecl "A" []]).map
        regKey).Nodup := by
  exact ⟨by decide, by decide⟩
